import Mathlib

/-!
Shallow embedding of the local-agent-gateway reverse-proxy core
(src/src-tauri/src: proxy.rs, dlp.rs, database.rs) together with proofs
about the embedded functions.  Request and response bodies are modelled as
lists of characters; the source operates on UTF-8 bytes, and every input
considered here is ASCII, where the two views coincide.
-/

namespace Gateway

/-- Characters of a string literal, the basic byte-string model. -/
def chars (s : String) : List Char := s.data

/-- Opening brace character. -/
def braceL : Char := Char.ofNat 123

/-- Closing brace character. -/
def braceR : Char := Char.ofNat 125

/-- Double-quote character. -/
def quoteC : Char := Char.ofNat 34

/-- Backslash character. -/
def backslashC : Char := Char.ofNat 92

/-!
## Streaming detection (proxy.rs, proxy_handler)

The source computes
`body_bytes.windows(13).any(|w| w == b"\"stream\":true" || w == b"\"stream\": true")`.
The first literal is 13 bytes long, the second is 14 bytes long; a
13-element window compared against a 14-element array is a length-mismatched
slice comparison in Rust, which is false.
-/

/-- All contiguous length-`n` windows of a list, as in Rust `slice::windows`. -/
def windows (n : Nat) (l : List Char) : List (List Char) :=
  (List.range (l.length + 1 - n)).map (fun i => (l.drop i).take n)

/-- The 13-byte pattern with no space after the colon. -/
def streamPatTight : List Char := chars "\"stream\":true"

/-- The 14-byte pattern with one space after the colon. -/
def streamPatSpaced : List Char := chars "\"stream\": true"

/-- Embedding of the streaming probe in proxy_handler. -/
def is_streaming (body : List Char) : Bool :=
  (windows 13 body).any (fun w => w == streamPatTight || w == streamPatSpaced)

/-- Substring containment, the reading used by the specification sentence. -/
def containsSub (body pat : List Char) : Bool :=
  (List.range (body.length + 1)).any (fun i => pat.isPrefixOf (body.drop i))

/-!
## Rate limiter (proxy.rs, RateLimiter::check_and_record)

The limiter state for one backend is the stored list of admitted request
timestamps in seconds since the epoch.
-/

/-- Embedding of RateLimiter::check_and_record for a single backend entry.
Returns (allowed, new stored state).  Timestamps at or before
`now - window_minutes * 60` are pruned first; the subtraction saturates at
zero exactly as `u64::saturating_sub` does. -/
def check_and_record (timestamps : List Nat) (now : Nat)
    (max_requests window_minutes : Nat) : Bool × List Nat :=
  if max_requests = 0 then (true, timestamps)
  else
    let cutoff := now - window_minutes * 60
    let ts := timestamps.filter (fun t => decide (cutoff < t))
    if max_requests ≤ ts.length then (false, ts)
    else (true, ts ++ [now])

/-- Repeated limiter calls at the given call times, starting from the given
stored state and list of already admitted times; returns the final stored
state and the accumulated admitted times. -/
def runLimiter (max_requests window_minutes : Nat) :
    List Nat → List Nat → List Nat → List Nat × List Nat
  | [], state, admitted => (state, admitted)
  | t :: rest, state, admitted =>
    let r := check_and_record state t max_requests window_minutes
    runLimiter max_requests window_minutes rest r.2
      (if r.1 then admitted ++ [t] else admitted)

/-- Number of entries with timestamp in the half-open window (t - w, t]. -/
def countInWindow (t w : Nat) (l : List Nat) : Nat :=
  (l.filter (fun x => decide (t - w < x) && decide (x ≤ t))).length

/-!
## Token estimation (proxy.rs, estimate_tokens)
-/

/-- ASCII whitespace, the model of the whitespace test behind
`split_whitespace` (the source uses Unicode `char::is_whitespace`; all
bodies considered here are ASCII). -/
def isSpaceChar (c : Char) : Bool :=
  c == ' ' || c == Char.ofNat 9 || c == Char.ofNat 10 ||
  c == Char.ofNat 13 || c == Char.ofNat 11 || c == Char.ofNat 12

/-- Number of maximal nonempty runs of non-whitespace characters, the model
of `split_whitespace().count()`.  The flag records whether the scan is
currently inside a word. -/
def countWords : List Char → Bool → Nat
  | [], _ => 0
  | c :: rest, inWord =>
    if isSpaceChar c then countWords rest false
    else (if inWord then 0 else 1) + countWords rest true

/-- Embedding of estimate_tokens: `(word_count as f64 * 1.5).ceil() as u32`.
For word counts below 2^52 the f64 computation is exact and equals
`wc + ceil(wc / 2)`; the cast to u32 saturates. -/
def estimate_tokens (text : List Char) : Nat :=
  let wc := countWords text false
  min (wc + (wc + 1) / 2) (2 ^ 32 - 1)

/-!
## Placeholder minting (dlp.rs, create_placeholder)

The source seeds a linear congruential generator with
`DefaultHasher::finish` of the sequential id and walks the original
character by character.  The hash function lives in the Rust standard
library, not in this repository; it is abstracted as an arbitrary function
`seedF : Nat → Nat` from ids to initial seeds, and every theorem below
holds for all such functions.
-/

/-- One step of the source's linear congruential generator on u64. -/
def lcgNext (seed : Nat) : Nat := (seed * 6364136223846793005 + 1) % 2 ^ 64

/-- ASCII lowercase test (`char::is_ascii_lowercase`). -/
def isAsciiLower (c : Char) : Bool := 97 ≤ c.toNat && c.toNat ≤ 122

/-- ASCII uppercase test (`char::is_ascii_uppercase`). -/
def isAsciiUpper (c : Char) : Bool := 65 ≤ c.toNat && c.toNat ≤ 90

/-- ASCII digit test (`char::is_ascii_digit`). -/
def isAsciiDigit (c : Char) : Bool := 48 ≤ c.toNat && c.toNat ≤ 57

/-- Character class used by the shape-preservation property. -/
inductive CharClass where
  | lower
  | upper
  | digit
  | other
deriving DecidableEq

/-- Class of a character. -/
def charClass (c : Char) : CharClass :=
  if isAsciiLower c then .lower
  else if isAsciiUpper c then .upper
  else if isAsciiDigit c then .digit
  else .other

/-- The character walk of create_placeholder.  Each ASCII letter or digit
consumes one generator step and is replaced inside its own class; every
other character is kept verbatim and leaves the seed untouched, exactly as
in the source closure. -/
def placeholderChars (seed : Nat) : List Char → List Char
  | [] => []
  | c :: rest =>
    if isAsciiLower c then
      let s := lcgNext seed
      Char.ofNat (97 + s % 26) :: placeholderChars s rest
    else if isAsciiUpper c then
      let s := lcgNext seed
      Char.ofNat (65 + s % 26) :: placeholderChars s rest
    else if isAsciiDigit c then
      let s := lcgNext seed
      Char.ofNat (48 + s % 10) :: placeholderChars s rest
    else c :: placeholderChars seed rest

/-- Embedding of create_placeholder; `seedF` abstracts the DefaultHasher
seeding of the id. -/
def create_placeholder (seedF : Nat → Nat) (id : Nat) (original : List Char) :
    List Char :=
  placeholderChars (seedF id) original

/-!
## String replacement (Rust `str::replace`)
-/

/-- Fuel-driven left-to-right replacement of every non-overlapping
occurrence of `pat` by `rep`, the model of Rust `str::replace`.  The fuel
bounds the number of scan steps; `replaceAll` supplies the input length,
which suffices because every step consumes at least one input character.
An empty pattern is treated as matching nothing (in the source, patterns
are regex matches and placeholders, which are nonempty in every scenario
considered here). -/
def replaceFuel : Nat → List Char → List Char → List Char → List Char
  | 0, s, _, _ => s
  | _ + 1, [], _, _ => []
  | fuel + 1, c :: rest, pat, rep =>
    if pat ≠ [] ∧ pat.isPrefixOf (c :: rest) then
      rep ++ replaceFuel fuel ((c :: rest).drop pat.length) pat rep
    else c :: replaceFuel fuel rest pat rep

/-- Replacement of every occurrence of `pat` by `rep` in `s`. -/
def replaceAll (s pat rep : List Char) : List Char :=
  replaceFuel s.length s pat rep

/-!
## Un-redaction (dlp.rs, apply_dlp_unredaction)

The source folds over `replacements: HashMap<String, String>` mapping
placeholder to original and calls `result.replace(placeholder, original)`
for each entry.  A HashMap iterates in an unspecified order; the embedding
takes the iteration order as the order of the input list.
-/

/-- Embedding of apply_dlp_unredaction: fold the replacement map, in its
iteration order, over the body.  Each entry is (placeholder, original). -/
def apply_dlp_unredaction (body : List Char)
    (replacements : List (List Char × List Char)) : List Char :=
  replacements.foldl (fun acc pr => replaceAll acc pr.1 pr.2) body

/-- Insertion into a list sorted by descending placeholder length. -/
def insertDescByLen (x : List Char × List Char) :
    List (List Char × List Char) → List (List Char × List Char)
  | [] => [x]
  | y :: ys =>
    if y.1.length ≤ x.1.length then x :: y :: ys
    else y :: insertDescByLen x ys

/-- Insertion sort by descending placeholder length. -/
def sortDescByLen (l : List (List Char × List Char)) :
    List (List Char × List Char) :=
  l.foldr insertDescByLen []

/-- The un-redaction procedure described by the specification sentence:
replace placeholders in descending order of placeholder length.  This is
the comparison definition for the refinement claim about
apply_dlp_unredaction, written from the specification words. -/
def unredactDescByLen (body : List Char)
    (replacements : List (List Char × List Char)) : List Char :=
  (sortDescByLen replacements).foldl (fun acc pr => replaceAll acc pr.1 pr.2) body

/-!
## DLP pattern matching state (dlp.rs, redact_text)

A compiled pattern carries the source fields; the regex engine itself is
the Rust `regex` crate, outside this repository, so each positive regex is
abstracted as a matcher function returning the list of matched substrings
in scan order (`find_iter`), and the negative list as a single boolean
test (`is_excluded_by_negative`).  Everything else is translated directly.
-/

/-- Detection record (dlp.rs, DlpDetection). -/
structure DlpDetection where
  pattern_name : List Char
  pattern_type : List Char
  original_value : List Char
  placeholder : List Char
  message_index : Option Int
deriving DecidableEq

/-- Compiled pattern (dlp.rs, CompiledDlpPattern), with the regex engine
abstracted into matcher functions. -/
structure CompiledDlpPattern where
  name : List Char
  pattern_type : List Char
  matchers : List (List Char → List (List Char))
  negMatch : List Char → Bool
  min_occurrences : Int
  min_unique_chars : Int

/-- Scan-order non-overlapping literal occurrences, a sample matcher used
to instantiate the abstract regex matchers on concrete inputs (it is the
behaviour of a compiled escaped-literal regex under `find_iter`). -/
def literalMatchesFuel : Nat → List Char → List Char → List (List Char)
  | 0, _, _ => []
  | _ + 1, [], _ => []
  | fuel + 1, c :: rest, pat =>
    if pat ≠ [] ∧ pat.isPrefixOf (c :: rest) then
      pat :: literalMatchesFuel fuel ((c :: rest).drop pat.length) pat
    else literalMatchesFuel fuel rest pat

/-- All scan-order occurrences of the literal `pat` in `s`. -/
def literalMatches (pat : List Char) (s : List Char) : List (List Char) :=
  literalMatchesFuel s.length s pat

/-- Number of distinct characters (dlp.rs, count_unique_chars). -/
def count_unique_chars (s : List Char) : Nat :=
  (s.foldl (fun seen c => if c ∈ seen then seen else c :: seen) []).length

/-- HashMap::insert on an association list: an existing key has its
value overwritten in place, a fresh key is appended.  The boolean
reports whether an existing key was overwritten (in the source the
earlier binding is silently lost). -/
def mapInsert (key val : List Char) :
    List (List Char × List Char) → List (List Char × List Char) × Bool
  | [] => ([(key, val)], false)
  | (k, v) :: t =>
    if k = key then ((k, val) :: t, true)
    else
      let r := mapInsert key val t
      ((k, v) :: r.1, r.2)

/-- Per-request redaction state threaded through redact_text: the
replacement map (placeholder, original) with HashMap contents modelled
as an association list with unique keys, the detection list, and the
sequential id counter, which the source starts at 1.  Two ghost fields
instrument the run without influencing it: `assignments` records, per
surviving match in processing order, the pair (original, placeholder
substituted for it), and `collided` records whether any minted
placeholder overwrote an existing placeholder key of the map. -/
structure RedactState where
  replacements : List (List Char × List Char)
  detections : List DlpDetection
  assignments : List (List Char × List Char)
  collided : Bool
  counter : Nat

/-- The initial redaction state of apply_dlp_redaction. -/
def initState : RedactState := ⟨[], [], [], false, 1⟩

/-- Body of the per-match loop of redact_text: validate min_unique_chars
and the negative patterns, reuse the placeholder when the map already
binds this original, otherwise mint a placeholder, insert it into the map
(HashMap::insert: a colliding key overwrites the earlier binding) and
record a detection; then replace every occurrence in the working text. -/
def processMatch (seedF : Nat → Nat) (pat : CompiledDlpPattern)
    (mi : Option Int) (acc : List Char × RedactState) (matched : List Char) :
    List Char × RedactState :=
  if 0 < pat.min_unique_chars ∧
      (count_unique_chars matched : Int) < pat.min_unique_chars then acc
  else if pat.negMatch matched then acc
  else
    match acc.2.replacements.find? (fun pr => pr.2 == matched) with
    | some pr =>
      (replaceAll acc.1 matched pr.1,
       { acc.2 with assignments := acc.2.assignments ++ [(matched, pr.1)] })
    | none =>
      let p := create_placeholder seedF acc.2.counter matched
      let ins := mapInsert p matched acc.2.replacements
      (replaceAll acc.1 matched p,
       { replacements := ins.1,
         detections := acc.2.detections ++
           [{ pattern_name := pat.name, pattern_type := pat.pattern_type,
              original_value := matched, placeholder := p,
              message_index := mi }],
         assignments := acc.2.assignments ++ [(matched, p)],
         collided := acc.2.collided || ins.2,
         counter := acc.2.counter + 1 })

/-- Per-pattern step of redact_text: gather all matches of all positive
matchers against the current working text, skip the pattern when below
min_occurrences, otherwise process each match in order. -/
def processPattern (seedF : Nat → Nat) (mi : Option Int)
    (acc : List Char × RedactState) (pat : CompiledDlpPattern) :
    List Char × RedactState :=
  let all_matches := pat.matchers.foldl (fun ms m => ms ++ m acc.1) []
  if (all_matches.length : Int) < pat.min_occurrences then acc
  else all_matches.foldl (processMatch seedF pat mi) acc

/-- Embedding of redact_text: fold the patterns, in store order, over the
text, threading the redaction state. -/
def redact_text (seedF : Nat → Nat) (patterns : List CompiledDlpPattern)
    (mi : Option Int) (text : List Char) (st : RedactState) :
    List Char × RedactState :=
  patterns.foldl (processPattern seedF mi) (text, st)

/-!
## JSON model (serde_json::Value)

Objects mirror serde_json's default map (a BTreeMap): parsing inserts keys
in sorted order and a duplicate key keeps the last value.  Numbers are
restricted to optionally signed integers (the float grammar of serde is
not used by any claim).
-/

mutual
inductive Json where
  | null : Json
  | bool (b : Bool) : Json
  | num (n : Int) : Json
  | str (s : List Char) : Json
  | arr (items : JsonArr) : Json
  | obj (fields : JsonObj) : Json
inductive JsonArr where
  | nil : JsonArr
  | cons (hd : Json) (tl : JsonArr) : JsonArr
inductive JsonObj where
  | cnil : JsonObj
  | cons (key : List Char) (val : Json) (tl : JsonObj) : JsonObj
end

/-- Lookup of a key in an object, first binding wins. -/
def JsonObj.get (key : List Char) : JsonObj → Option Json
  | .cnil => none
  | .cons k v tl => if k = key then some v else JsonObj.get key tl

/-- Lookup of a key on a value; non-objects have no fields
(serde `Value::get`). -/
def Json.get : Json → List Char → Option Json
  | .obj fields, key => fields.get key
  | _, _ => none

/-- Lookup of a string-valued key (`get` followed by `as_str`). -/
def Json.getStr (j : Json) (key : List Char) : Option (List Char) :=
  match j.get key with
  | some (.str s) => some s
  | _ => none

/-- Lookup of an array-valued key (`get` followed by `as_array`). -/
def Json.getArr (j : Json) (key : List Char) : Option JsonArr :=
  match j.get key with
  | some (.arr items) => some items
  | _ => none

/-- Replacement of the value bound to an existing key (the model of
`get_mut` followed by in-place assignment); absent keys leave the object
unchanged. -/
def JsonObj.set (key : List Char) (v : Json) : JsonObj → JsonObj
  | .cnil => .cnil
  | .cons k v0 tl =>
    if k = key then .cons k v tl else .cons k v0 (JsonObj.set key v tl)

/-- Field replacement on a value; non-objects are returned unchanged. -/
def Json.setField : Json → List Char → Json → Json
  | .obj fields, key, v => .obj (fields.set key v)
  | j, _, _ => j

/-- Strict byte-lexicographic order on keys (the BTreeMap order for UTF-8
string keys). -/
def lexLt : List Char → List Char → Bool
  | [], [] => false
  | [], _ :: _ => true
  | _ :: _, [] => false
  | a :: as, b :: bs =>
    if a.toNat < b.toNat then true
    else if b.toNat < a.toNat then false
    else lexLt as bs

/-- Sorted insertion of a binding, replacing an equal key (BTreeMap
insert). -/
def objInsertSorted (key : List Char) (v : Json) : JsonObj → JsonObj
  | .cnil => .cons key v .cnil
  | .cons k0 v0 tl =>
    if key = k0 then .cons key v tl
    else if lexLt key k0 then .cons key v (.cons k0 v0 tl)
    else .cons k0 v0 (objInsertSorted key v tl)

/-!
## JSON parsing (serde_json::from_str, restricted as noted above)
-/

/-- Leading-whitespace removal on the serde whitespace set
(space, tab, line feed, carriage return). -/
def skipWs : List Char → List Char
  | [] => []
  | c :: rest =>
    if c = ' ' ∨ c = Char.ofNat 9 ∨ c = Char.ofNat 10 ∨ c = Char.ofNat 13 then
      skipWs rest
    else c :: rest

/-- Value of a hexadecimal digit. -/
def hexVal (c : Char) : Option Nat :=
  if 48 ≤ c.toNat ∧ c.toNat ≤ 57 then some (c.toNat - 48)
  else if 97 ≤ c.toNat ∧ c.toNat ≤ 102 then some (c.toNat - 87)
  else if 65 ≤ c.toNat ∧ c.toNat ≤ 70 then some (c.toNat - 55)
  else none

/-- Decoding of one escape sequence after a backslash; returns the decoded
character and the remaining input.  Surrogate pairs are not modelled (a
code unit in the surrogate range maps through `Char.ofNat` to NUL). -/
def decodeEscape : List Char → Option (Char × List Char)
  | [] => none
  | e :: rest =>
    if e = quoteC then some (quoteC, rest)
    else if e = backslashC then some (backslashC, rest)
    else if e = '/' then some ('/', rest)
    else if e = 'n' then some (Char.ofNat 10, rest)
    else if e = 't' then some (Char.ofNat 9, rest)
    else if e = 'r' then some (Char.ofNat 13, rest)
    else if e = 'b' then some (Char.ofNat 8, rest)
    else if e = 'f' then some (Char.ofNat 12, rest)
    else if e = 'u' then
      match rest with
      | h1 :: h2 :: h3 :: h4 :: rest2 =>
        match hexVal h1, hexVal h2, hexVal h3, hexVal h4 with
        | some a, some b, some c, some d =>
          some (Char.ofNat (((a * 16 + b) * 16 + c) * 16 + d), rest2)
        | _, _, _, _ => none
      | _ => none
    else none

/-- String-literal body parsing, entered after the opening quote; returns
the decoded content and the input after the closing quote. -/
def parseStrFuel : Nat → List Char → Option (List Char × List Char)
  | 0, _ => none
  | fuel + 1, s =>
    match s with
    | [] => none
    | c :: rest =>
      if c = quoteC then some ([], rest)
      else if c = backslashC then
        match decodeEscape rest with
        | some (d, rest2) =>
          match parseStrFuel fuel rest2 with
          | some (content, r) => some (d :: content, r)
          | none => none
        | none => none
      else
        match parseStrFuel fuel rest with
        | some (content, r) => some (c :: content, r)
        | none => none

/-- Longest leading digit run. -/
def takeDigits : List Char → List Char × List Char
  | [] => ([], [])
  | c :: rest =>
    if isAsciiDigit c then
      let r := takeDigits rest
      (c :: r.1, r.2)
    else ([], c :: rest)

/-- Natural number denoted by a digit run. -/
def digitsToNat (l : List Char) : Nat :=
  l.foldl (fun acc c => acc * 10 + (c.toNat - 48)) 0

/-- Integer literal parsing (optional minus sign, then digits). -/
def parseIntLit : List Char → Option (Int × List Char)
  | [] => none
  | c :: rest =>
    if c = '-' then
      let r := takeDigits rest
      if r.1 = [] then none else some (-(digitsToNat r.1 : Int), r.2)
    else
      let r := takeDigits (c :: rest)
      if r.1 = [] then none else some ((digitsToNat r.1 : Int), r.2)

mutual
/-- Fuel-driven value parser.  The fuel strictly decreases on every
recursive call; `parseJson` supplies input length plus one, which
suffices because every recursive step consumes at least one character. -/
def parseValue : Nat → List Char → Option (Json × List Char)
  | 0, _ => none
  | fuel + 1, s =>
    match skipWs s with
    | [] => none
    | c :: rest =>
      if c = braceL then parseObjFields fuel rest .cnil true
      else if c = '[' then
        match parseArrItems fuel rest true with
        | some (items, r) => some (.arr items, r)
        | none => none
      else if c = quoteC then
        match parseStrFuel rest.length rest with
        | some (content, r) => some (.str content, r)
        | none => none
      else if (chars "true").isPrefixOf (c :: rest) then
        some (.bool true, (c :: rest).drop 4)
      else if (chars "false").isPrefixOf (c :: rest) then
        some (.bool false, (c :: rest).drop 5)
      else if (chars "null").isPrefixOf (c :: rest) then
        some (.null, (c :: rest).drop 4)
      else
        match parseIntLit (c :: rest) with
        | some (n, r) => some (.num n, r)
        | none => none
/-- Array item list parsing, entered after the opening bracket; the flag
marks the first item, where a closing bracket is allowed. -/
def parseArrItems : Nat → List Char → Bool → Option (JsonArr × List Char)
  | 0, _, _ => none
  | fuel + 1, s, first =>
    let s1 := skipWs s
    if first ∧ s1.head? = some ']' then some (.nil, s1.tail)
    else
      match parseValue fuel s1 with
      | none => none
      | some (v, r1) =>
        match skipWs r1 with
        | c :: r2 =>
          if c = ',' then
            match parseArrItems fuel r2 false with
            | some (tl, r3) => some (.cons v tl, r3)
            | none => none
          else if c = ']' then some (.cons v .nil, r2)
          else none
        | [] => none
/-- Object field list parsing, entered after the opening brace; fields
accumulate through sorted insertion, mirroring the BTreeMap. -/
def parseObjFields : Nat → List Char → JsonObj → Bool → Option (Json × List Char)
  | 0, _, _, _ => none
  | fuel + 1, s, acc, first =>
    let s1 := skipWs s
    if first ∧ s1.head? = some braceR then some (.obj acc, s1.tail)
    else
      match s1 with
      | c :: r0 =>
        if c = quoteC then
          match parseStrFuel r0.length r0 with
          | some (k, r1) =>
            match skipWs r1 with
            | c2 :: r2 =>
              if c2 = ':' then
                match parseValue fuel r2 with
                | some (v, r3) =>
                  match skipWs r3 with
                  | c3 :: r4 =>
                    if c3 = ',' then
                      parseObjFields fuel r4 (objInsertSorted k v acc) false
                    else if c3 = braceR then
                      some (.obj (objInsertSorted k v acc), r4)
                    else none
                  | [] => none
                | none => none
              else none
            | [] => none
          | none => none
        else none
      | [] => none
end

/-- Embedding of serde_json::from_str on a whole body: one value followed
by nothing but whitespace. -/
def parseJson (body : List Char) : Option Json :=
  match parseValue (body.length + 1) body with
  | some (j, rest) => if skipWs rest = [] then some j else none
  | none => none

/-!
## JSON serialization (serde_json::to_string)
-/

/-- Lowercase hexadecimal digit. -/
def hexDigit (n : Nat) : Char :=
  if n < 10 then Char.ofNat (48 + n) else Char.ofNat (87 + n)

/-- Escape of one character in string output, following serde's compact
formatter. -/
def escapeChar (c : Char) : List Char :=
  if c = quoteC then [backslashC, quoteC]
  else if c = backslashC then [backslashC, backslashC]
  else if c = Char.ofNat 8 then [backslashC, 'b']
  else if c = Char.ofNat 12 then [backslashC, 'f']
  else if c = Char.ofNat 10 then [backslashC, 'n']
  else if c = Char.ofNat 13 then [backslashC, 'r']
  else if c = Char.ofNat 9 then [backslashC, 't']
  else if c.toNat < 32 then
    [backslashC, 'u', '0', '0', hexDigit (c.toNat / 16), hexDigit (c.toNat % 16)]
  else [c]

/-- Quoted, escaped string literal output. -/
def renderStr (s : List Char) : List Char :=
  quoteC :: s.foldr (fun c acc => escapeChar c ++ acc) [quoteC]

mutual
/-- Compact serialization of a value. -/
def Json.render : Json → List Char
  | .null => chars "null"
  | .bool true => chars "true"
  | .bool false => chars "false"
  | .num n => (toString n).data
  | .str s => renderStr s
  | .arr items => '[' :: (JsonArr.render items ++ [']'])
  | .obj fields => braceL :: (JsonObj.render fields ++ [braceR])
/-- Comma-separated serialization of array items. -/
def JsonArr.render : JsonArr → List Char
  | .nil => []
  | .cons h .nil => Json.render h
  | .cons h (.cons h2 t) =>
    Json.render h ++ ',' :: JsonArr.render (.cons h2 t)
/-- Comma-separated serialization of object fields. -/
def JsonObj.render : JsonObj → List Char
  | .cnil => []
  | .cons k v .cnil => renderStr k ++ ':' :: Json.render v
  | .cons k v (.cons k2 v2 t) =>
    renderStr k ++ ':' :: Json.render v ++ ',' :: JsonObj.render (.cons k2 v2 t)
end

/-!
## Selective traversal (dlp.rs, apply_dlp_redaction and
redact_value_recursive)
-/

mutual
/-- Embedding of redact_value_recursive: strings go through redact_text,
arrays and object values recurse, other leaves are unchanged. -/
def redactValue (seedF : Nat → Nat) (patterns : List CompiledDlpPattern)
    (mi : Option Int) : Json → RedactState → Json × RedactState
  | .str s, st =>
    let r := redact_text seedF patterns mi s st
    (.str r.1, r.2)
  | .arr items, st =>
    let r := redactArr seedF patterns mi items st
    (.arr r.1, r.2)
  | .obj fields, st =>
    let r := redactObj seedF patterns mi fields st
    (.obj r.1, r.2)
  | v, st => (v, st)
/-- Recursion of redact_value_recursive over array items. -/
def redactArr (seedF : Nat → Nat) (patterns : List CompiledDlpPattern)
    (mi : Option Int) : JsonArr → RedactState → JsonArr × RedactState
  | .nil, st => (.nil, st)
  | .cons h t, st =>
    let r1 := redactValue seedF patterns mi h st
    let r2 := redactArr seedF patterns mi t r1.2
    (.cons r1.1 r2.1, r2.2)
/-- Recursion of redact_value_recursive over object values. -/
def redactObj (seedF : Nat → Nat) (patterns : List CompiledDlpPattern)
    (mi : Option Int) : JsonObj → RedactState → JsonObj × RedactState
  | .cnil, st => (.cnil, st)
  | .cons k v t, st =>
    let r1 := redactValue seedF patterns mi v st
    let r2 := redactObj seedF patterns mi t r1.2
    (.cons k r1.1 r2.1, r2.2)
end

/-- Role of a message (`get("role").and_then(as_str).unwrap_or("")`). -/
def roleOf (m : Json) : List Char := (m.getStr (chars "role")).getD []

/-- Item type of a Codex input item
(`get("type").and_then(as_str).unwrap_or("")`). -/
def typeOf (item : Json) : List Char := (item.getStr (chars "type")).getD []

/-- Processing of one Claude message: non-user roles are skipped; a user
message has its `content` field redacted recursively, with its index as
the message index. -/
def processMessage (seedF : Nat → Nat) (patterns : List CompiledDlpPattern)
    (idx : Nat) (m : Json) (st : RedactState) : Json × RedactState :=
  if roleOf m ≠ chars "user" then (m, st)
  else
    match m.get (chars "content") with
    | none => (m, st)
    | some c =>
      let r := redactValue seedF patterns (some (Int.ofNat idx)) c st
      (m.setField (chars "content") r.1, r.2)

/-- Enumerated walk over the Claude `messages` array. -/
def processMessages (seedF : Nat → Nat) (patterns : List CompiledDlpPattern) :
    Nat → JsonArr → RedactState → JsonArr × RedactState
  | _, .nil, st => (.nil, st)
  | idx, .cons m t, st =>
    let r1 := processMessage seedF patterns idx m st
    let r2 := processMessages seedF patterns (idx + 1) t r1.2
    (.cons r1.1 r2.1, r2.2)

/-- Processing of one Codex input item, dispatching on its `type`: user
messages have `content` redacted, function_call_output items have
`output` redacted, everything else is skipped. -/
def processInputItem (seedF : Nat → Nat) (patterns : List CompiledDlpPattern)
    (idx : Nat) (item : Json) (st : RedactState) : Json × RedactState :=
  if typeOf item = chars "message" then
    if roleOf item ≠ chars "user" then (item, st)
    else
      match item.get (chars "content") with
      | none => (item, st)
      | some c =>
        let r := redactValue seedF patterns (some (Int.ofNat idx)) c st
        (item.setField (chars "content") r.1, r.2)
  else if typeOf item = chars "function_call_output" then
    match item.get (chars "output") with
    | none => (item, st)
    | some o =>
      let r := redactValue seedF patterns (some (Int.ofNat idx)) o st
      (item.setField (chars "output") r.1, r.2)
  else (item, st)

/-- Enumerated walk over the Codex `input` array. -/
def processInput (seedF : Nat → Nat) (patterns : List CompiledDlpPattern) :
    Nat → JsonArr → RedactState → JsonArr × RedactState
  | _, .nil, st => (.nil, st)
  | idx, .cons item t, st =>
    let r1 := processInputItem seedF patterns idx item st
    let r2 := processInput seedF patterns (idx + 1) t r1.2
    (.cons r1.1 r2.1, r2.2)

/-- Result of request-body redaction (dlp.rs, DlpRedactionResult). -/
structure DlpRedactionResult where
  redacted_body : List Char
  replacements : List (List Char × List Char)
  detections : List DlpDetection

/-- The document walk of apply_dlp_redaction on a parsed body: the
Claude `messages` array and then the Codex `input` array are processed
with a shared state starting from the initial one; returns the mutated
document and the final state. -/
def redactionRun (seedF : Nat → Nat) (patterns : List CompiledDlpPattern)
    (j : Json) : Json × RedactState :=
  let p1 :=
    match j.getArr (chars "messages") with
    | none => (j, initState)
    | some msgs =>
      let r := processMessages seedF patterns 0 msgs initState
      (j.setField (chars "messages") (.arr r.1), r.2)
  match p1.1.getArr (chars "input") with
  | none => p1
  | some inp =>
    let r := processInput seedF patterns 0 inp p1.2
    (p1.1.setField (chars "input") (.arr r.1), r.2)

/-- Embedding of apply_dlp_redaction.  With no enabled pattern or a body
that does not parse as JSON the body passes through byte-for-byte;
otherwise the Claude `messages` array and the Codex `input` array are
walked with a shared state and the mutated document is re-serialized. -/
def apply_dlp_redaction (seedF : Nat → Nat)
    (patterns : List CompiledDlpPattern) (body : List Char) :
    DlpRedactionResult :=
  if patterns.isEmpty then ⟨body, [], []⟩
  else
    match parseJson body with
    | none => ⟨body, [], []⟩
    | some j =>
      let r := redactionRun seedF patterns j
      ⟨r.1.render, r.2.replacements, r.2.detections⟩

/-- Final redaction state of a whole request, the ghost fields included
(initial state when no pattern is enabled or the body does not parse). -/
def redactionStateOf (seedF : Nat → Nat)
    (patterns : List CompiledDlpPattern) (body : List Char) : RedactState :=
  if patterns.isEmpty then initState
  else
    match parseJson body with
    | none => initState
    | some j => (redactionRun seedF patterns j).2

/-!
## Policy gate (proxy.rs, proxy_handler lines before upstream dispatch)
-/

/-- Decimal representation of a natural number. -/
def natToChars (n : Nat) : List Char := (toString n).data

/-- Ascending insertion for the byte-lexicographic sort of pattern
names. -/
def insertLex (x : List Char) : List (List Char) → List (List Char)
  | [] => [x]
  | y :: ys => if lexLt y x then y :: insertLex x ys else x :: y :: ys

/-- Byte-lexicographic insertion sort (`Vec::sort` on `&str`). -/
def sortLex (l : List (List Char)) : List (List Char) :=
  l.foldr insertLex []

/-- Removal of adjacent duplicates (`Vec::dedup`). -/
def dedupAdj : List (List Char) → List (List Char)
  | [] => []
  | [x] => [x]
  | x :: y :: t =>
    if x = y then dedupAdj (y :: t) else x :: dedupAdj (y :: t)

/-- Embedding of format_detection_patterns: sort the pattern names,
remove adjacent duplicates, join with a comma and space. -/
def format_detection_patterns (detections : List DlpDetection) : List Char :=
  List.intercalate (chars ", ")
    (dedupAdj (sortLex (detections.map (fun d => d.pattern_name))))

/-- Embedding of create_claude_error_response, at the JSON value level
(the source serializes it with `to_string`). -/
def create_claude_error_response (pattern_names : List Char) : Json :=
  .obj (.cons (chars "type") (.str (chars "error"))
    (.cons (chars "error")
      (.obj (.cons (chars "type") (.str (chars "invalid_request_error"))
        (.cons (chars "message")
          (.str (chars "Request blocked: sensitive data detected (" ++
                 pattern_names ++ chars ")"))
          .cnil)))
      .cnil))

/-- Embedding of create_codex_error_response, at the JSON value level. -/
def create_codex_error_response (pattern_names : List Char) : Json :=
  .obj (.cons (chars "error")
    (.obj (.cons (chars "message")
      (.str (chars "Request blocked: sensitive data detected (" ++
             pattern_names ++ chars ")"))
      (.cons (chars "type") (.str (chars "invalid_request_error"))
        (.cons (chars "code") (.str (chars "content_policy_violation"))
          .cnil))))
    .cnil)

/-- A synthesized HTTP response of the policy gate: status code, header
list in insertion order, and the JSON error body. -/
structure HttpResp where
  status : Nat
  headers : List (List Char × List Char)
  body : Json

/-- Header lookup by exact name. -/
def lookupHeader : List (List Char × List Char) → List Char → Option (List Char)
  | [], _ => none
  | (k, v) :: t, n => if k = n then some v else lookupHeader t n

/-- The 429 rate-limit denial of proxy_handler: Content-Type and a
Retry-After header holding the window in seconds. -/
def rate_limit_response (max_requests window_minutes : Nat) : HttpResp :=
  { status := 429,
    headers := [(chars "Content-Type", chars "application/json"),
                (chars "Retry-After", natToChars (window_minutes * 60))],
    body := .obj (.cons (chars "error")
      (.obj (.cons (chars "message")
        (.str (chars "Rate limit exceeded: " ++ natToChars max_requests ++
               chars " requests per " ++ natToChars window_minutes ++
               chars " minute(s)"))
        (.cons (chars "type") (.str (chars "rate_limit_error"))
          (.cons (chars "code") (.str (chars "rate_limit_exceeded")) .cnil))))
      .cnil) }

/-- The 429 token-limit denial of proxy_handler: Content-Type only, no
Retry-After header appears in the source builder. -/
def token_limit_response (estimated max_tokens : Nat) : HttpResp :=
  { status := 429,
    headers := [(chars "Content-Type", chars "application/json")],
    body := .obj (.cons (chars "error")
      (.obj (.cons (chars "message")
        (.str (chars "Token limit exceeded: " ++ natToChars estimated ++
               chars " tokens (limit: " ++ natToChars max_tokens ++ chars ")"))
        (.cons (chars "type") (.str (chars "rate_limit_error"))
          (.cons (chars "code") (.str (chars "token_limit_exceeded")) .cnil))))
      .cnil) }

/-- The 400 DLP-block denial of proxy_handler: the body is the Codex
shape exactly when the backend is named `codex`, and the Claude shape for
every other backend. -/
def dlp_block_response (backend_name : List Char)
    (detections : List DlpDetection) : HttpResp :=
  let names := format_detection_patterns detections
  { status := 400,
    headers := [(chars "Content-Type", chars "application/json")],
    body := if backend_name = chars "codex" then
              create_codex_error_response names
            else create_claude_error_response names }

/-- Policy-relevant backend configuration (backends/mod.rs accessors as
read by proxy_handler). -/
structure BackendCfg where
  name : List Char
  rate_requests : Nat
  rate_minutes : Nat
  max_tokens : Nat
  token_action : List Char
  dlp_enabled : Bool

/-- Outcome of the policy gate: a synthesized denial, or the redacted
body handed to the upstream dispatcher together with the replacement map,
the detections and the notify flag. -/
inductive GateOutcome where
  | deny (resp : HttpResp)
  | proceed (redacted : List Char)
      (replacements : List (List Char × List Char))
      (detections : List DlpDetection) (notify_ratelimit : Bool)

/-- Status of a denial outcome. -/
def GateOutcome.denyStatus : GateOutcome → Option Nat
  | .deny resp => some resp.status
  | .proceed _ _ _ _ => none

/-- Body of a denial outcome. -/
def GateOutcome.denyBody : GateOutcome → Option Json
  | .deny resp => some resp.body
  | .proceed _ _ _ _ => none

/-- Headers of a denial outcome. -/
def GateOutcome.denyHeaders : GateOutcome → Option (List (List Char × List Char))
  | .deny resp => some resp.headers
  | .proceed _ _ _ _ => none

/-- The DLP stage of proxy_handler: run redaction when DLP is enabled for
the backend; deny with 400 when the global action is block and a
detection was found. -/
def dlpStage (seedF : Nat → Nat) (patterns : List CompiledDlpPattern)
    (cfg : BackendCfg) (global_dlp_action : List Char) (body : List Char)
    (notify : Bool) : GateOutcome :=
  let res :=
    if cfg.dlp_enabled then apply_dlp_redaction seedF patterns body
    else ⟨body, [], []⟩
  if cfg.dlp_enabled ∧ global_dlp_action = chars "block" ∧
      res.detections ≠ [] then
    .deny (dlp_block_response cfg.name res.detections)
  else .proceed res.redacted_body res.replacements res.detections notify

/-- The token-budget stage of proxy_handler followed by the DLP stage:
checked only when a limit is configured and the body should be logged;
in block mode the request is denied, in any other mode the notify flag is
raised. -/
def tokenStage (seedF : Nat → Nat) (patterns : List CompiledDlpPattern)
    (cfg : BackendCfg) (global_dlp_action : List Char) (should_log : Bool)
    (body : List Char) : GateOutcome :=
  if 0 < cfg.max_tokens ∧ should_log = true ∧
      cfg.max_tokens < estimate_tokens body then
    if cfg.token_action = chars "block" then
      .deny (token_limit_response (estimate_tokens body) cfg.max_tokens)
    else dlpStage seedF patterns cfg global_dlp_action body true
  else dlpStage seedF patterns cfg global_dlp_action body false

/-- The policy gate of proxy_handler: rate limiter, then token budget,
then DLP.  Returns the outcome and the new limiter state; the limiter is
consulted only when a rate limit is configured. -/
def policyGate (seedF : Nat → Nat) (patterns : List CompiledDlpPattern)
    (cfg : BackendCfg) (global_dlp_action : List Char) (should_log : Bool)
    (limiter : List Nat) (now : Nat) (body : List Char) :
    GateOutcome × List Nat :=
  if 0 < cfg.rate_requests then
    if (check_and_record limiter now cfg.rate_requests cfg.rate_minutes).1 then
      (tokenStage seedF patterns cfg global_dlp_action should_log body,
       (check_and_record limiter now cfg.rate_requests cfg.rate_minutes).2)
    else
      (.deny (rate_limit_response cfg.rate_requests cfg.rate_minutes),
       (check_and_record limiter now cfg.rate_requests cfg.rate_minutes).2)
  else (tokenStage seedF patterns cfg global_dlp_action should_log body, limiter)

/-- Claude-family error shape: top-level type `error` with a nested error
object carrying `invalid_request_error` and a message. -/
def isClaudeErrorShape (j : Json) : Bool :=
  j.getStr (chars "type") == some (chars "error") &&
  (match j.get (chars "error") with
   | some e =>
     e.getStr (chars "type") == some (chars "invalid_request_error") &&
     (e.getStr (chars "message")).isSome
   | none => false)

/-- Codex/OpenAI-family error shape: a single error object carrying
`invalid_request_error`, the `content_policy_violation` code and a
message. -/
def isCodexErrorShape (j : Json) : Bool :=
  match j.get (chars "error") with
  | some e =>
    e.getStr (chars "type") == some (chars "invalid_request_error") &&
    e.getStr (chars "code") == some (chars "content_policy_violation") &&
    (e.getStr (chars "message")).isSome
  | none => false

/-!
## Cursor-hook record upserts (database.rs, log_cursor_hook_request and
the other cursor-hook updates)

The stored row is modelled by the columns the cursor-hook statements
touch.  Events below act on an existing row found within the five-minute
recency window; the insert branch creates the row.
-/

/-- DLP action stored value: passed. -/
def DLP_ACTION_PASSED : Int := 0

/-- DLP action stored value: redacted. -/
def DLP_ACTION_REDACTED : Int := 1

/-- DLP action stored value: blocked. -/
def DLP_ACTION_BLOCKED : Int := 2

/-- Columns of a cursor-hooks request row touched by the hook
statements. -/
structure CursorRecord where
  input_tokens : Int
  output_tokens : Int
  response_status : Int
  dlp_action : Int
  assistant_message_count : Int
  has_thinking : Bool
  response_body : List Char
  latency_ms : Int
deriving DecidableEq

/-- Insert branch of log_cursor_hook_request: a fresh row for a
generation id. -/
def insertCursorHookRecord (tokens out : Int) (status action : Int)
    (response_body : List Char) : CursorRecord :=
  { input_tokens := tokens, output_tokens := out,
    response_status := status, dlp_action := action,
    assistant_message_count := 0, has_thinking := false,
    response_body := response_body, latency_ms := 0 }

/-- One cursor-hook event applied to an existing row: a before_* event
carries tokens, status and dlp action (the update branch of
log_cursor_hook_request); an after_agent_response carries output tokens,
optional response text and the computed latency
(update_cursor_hook_output); an after-thought event carries its word
count (add_cursor_hook_thinking_tokens). -/
inductive CursorHookEvent where
  | beforeEvent (tokens : Int) (status : Int) (action : Int)
  | afterResponseEvent (out : Int) (text : Option (List Char)) (latency : Int)
  | afterThoughtEvent (words : Int)

/-- The SQL update each event performs on the found row. -/
def applyCursorHookEvent (r : CursorRecord) : CursorHookEvent → CursorRecord
  | .beforeEvent t s a =>
    { r with input_tokens := r.input_tokens + t,
             response_status :=
               if s > r.response_status then s else r.response_status,
             dlp_action := if a > r.dlp_action then a else r.dlp_action }
  | .afterResponseEvent o text l =>
    match text with
    | some txt =>
      { r with output_tokens := r.output_tokens + o, response_body := txt,
               assistant_message_count := 1, latency_ms := l }
    | none => { r with output_tokens := r.output_tokens + o, latency_ms := l }
  | .afterThoughtEvent w =>
    { r with output_tokens := r.output_tokens + w, has_thinking := true }

/-- Fold of a sequence of cursor-hook events over a row. -/
def runCursorHookEvents (r : CursorRecord) : List CursorHookEvent → CursorRecord
  | [] => r
  | e :: es => runCursorHookEvents (applyCursorHookEvent r e) es

/-!
## Concrete sample values used by witnesses and counterexamples
-/

/-- Sample seeding function standing in for the DefaultHasher seeding in
concrete instantiations. -/
def seedId : Nat → Nat := fun n => n

/-- A request body whose bytes contain the spaced stream flag only. -/
def spacedStreamBody : List Char := chars "\x7b\"model\":\"m\",\"stream\": true\x7d"

/-- A request body whose bytes contain the tight stream flag. -/
def tightStreamBody : List Char := chars "\x7b\"model\":\"m\",\"stream\":true\x7d"

/-- Replacement list for the un-redaction counterexample: in iteration
order, the short placeholder precedes the longer placeholder of which it
is a proper prefix. -/
def unredactCexReps : List (List Char × List Char) :=
  [(chars "ab", chars "XY"), (chars "abc", chars "PQR")]

/-!
## Claim C1 (streaming detection)
-/

/-- C1: the claim says a request is streaming iff its raw bytes contain
`"stream":true` or `"stream": true`.  The source compares every 13-byte
window against both literals, but the spaced literal is 14 bytes long, so
that comparison is always false: a body containing only the spaced form
is not treated as streaming, while the tight form is detected.  This
exhibits the failing input for the code_bug verdict. -/
theorem C1_stream_space_pattern_never_matches :
    containsSub spacedStreamBody streamPatSpaced = true ∧
    is_streaming spacedStreamBody = false ∧
    is_streaming tightStreamBody = true := by decide

/-!
## Claim C10 (denied requests consume no slot)
-/

/-- C10: when the rate limiter denies a request, the stored state for the
backend is exactly the expiry-pruned previous state; the denied call
appends no timestamp. -/
theorem C10_denied_request_keeps_state (state : List Nat)
    (now max_requests window_minutes : Nat)
    (h : (check_and_record state now max_requests window_minutes).1 = false) :
    (check_and_record state now max_requests window_minutes).2 =
      state.filter (fun t => decide (now - window_minutes * 60 < t)) := by
  simp only [check_and_record] at h ⊢
  split_ifs at h ⊢ with h1 h2
  rfl

/-- Witness for C10 at a concrete denied call. -/
theorem C10_denied_request_keeps_state_witness :
    (check_and_record [5, 6] 6 1 1).2 =
      [5, 6].filter (fun t => decide (6 - 1 * 60 < t)) :=
  C10_denied_request_keeps_state [5, 6] 6 1 1 (by decide)

/-!
## Claim C9 (cursor-hook upsert monotonicity)
-/

/-- No cursor-hook event lowers the stored dlp_action: before events take
the maximum and the after events leave the column untouched. -/
lemma cursorHook_dlp_step (r : CursorRecord) (e : CursorHookEvent) :
    r.dlp_action ≤ (applyCursorHookEvent r e).dlp_action := by
  cases e with
  | beforeEvent t s a =>
    simp only [applyCursorHookEvent]
    split_ifs with h <;> omega
  | afterResponseEvent o txt l => cases txt <;> simp [applyCursorHookEvent]
  | afterThoughtEvent w => simp [applyCursorHookEvent]

/-- C9: the DLP action order is BLOCKED > REDACTED > PASSED; across any
event sequence stored for one generation id the dlp_action column never
decreases; and each before event adds its tokens to input_tokens while
keeping the maximum response_status and the maximum dlp_action. -/
theorem C9_cursor_hook_monotonicity :
    (DLP_ACTION_PASSED < DLP_ACTION_REDACTED ∧
     DLP_ACTION_REDACTED < DLP_ACTION_BLOCKED)
    ∧ (∀ (r : CursorRecord) (es : List CursorHookEvent),
        r.dlp_action ≤ (runCursorHookEvents r es).dlp_action)
    ∧ (∀ (r : CursorRecord) (t s a : Int),
        (applyCursorHookEvent r (.beforeEvent t s a)).input_tokens =
          r.input_tokens + t
        ∧ (applyCursorHookEvent r (.beforeEvent t s a)).response_status =
          max r.response_status s
        ∧ (applyCursorHookEvent r (.beforeEvent t s a)).dlp_action =
          max r.dlp_action a) := by
  refine ⟨by decide, ?_, ?_⟩
  · intro r es
    induction es generalizing r with
    | nil => simp [runCursorHookEvents]
    | cons e es ih =>
      exact le_trans (cursorHook_dlp_step r e) (ih (applyCursorHookEvent r e))
  · intro r t s a
    refine ⟨by simp [applyCursorHookEvent], ?_, ?_⟩
    · simp only [applyCursorHookEvent]
      rw [max_def]
      split_ifs <;> omega
    · simp only [applyCursorHookEvent]
      rw [max_def]
      split_ifs <;> omega

/-!
## Claim C2 (un-redaction replacement order)
-/

/-- C2 counterexample: on the map iterated with the short placeholder
first, the source fold substitutes the short placeholder inside the body
before the longer placeholder is tried, so the result differs from the
descending-length replacement the claim describes. -/
theorem C2_unredaction_not_length_ordered_cex :
    apply_dlp_unredaction (chars "abc") unredactCexReps ≠
      unredactDescByLen (chars "abc") unredactCexReps := by decide

/-- An already length-descending list is untouched by the descending
insertion sort. -/
lemma sortDescByLen_eq_of_sorted :
    ∀ l : List (List Char × List Char),
      List.Pairwise (fun a b => b.1.length ≤ a.1.length) l →
      sortDescByLen l = l := by
  intro l
  induction l with
  | nil => intro _; rfl
  | cons x t ih =>
    intro h
    show insertDescByLen x (sortDescByLen t) = x :: t
    rw [ih h.of_cons]
    cases t with
    | nil => rfl
    | cons y ys =>
      have hxy : y.1.length ≤ x.1.length :=
        (List.pairwise_cons.mp h).1 y (List.mem_cons_self y ys)
      simp [insertDescByLen, hxy]

/-- C2 amended: un-redaction substitutes each placeholder with its
original by folding over the replacement map in its iteration order; it
coincides with descending-length replacement exactly when that iteration
order already happens to be length-descending. -/
theorem C2_unredaction_order_amended (body : List Char)
    (reps : List (List Char × List Char))
    (hsorted : List.Pairwise (fun a b => b.1.length ≤ a.1.length) reps) :
    apply_dlp_unredaction body reps = unredactDescByLen body reps := by
  unfold unredactDescByLen
  rw [sortDescByLen_eq_of_sorted reps hsorted]
  rfl

/-- Witness for the amended C2 at a concrete length-descending map. -/
theorem C2_unredaction_order_amended_witness :
    apply_dlp_unredaction (chars "abc")
        [(chars "abc", chars "PQR"), (chars "ab", chars "XY")] =
      unredactDescByLen (chars "abc")
        [(chars "abc", chars "PQR"), (chars "ab", chars "XY")] :=
  C2_unredaction_order_amended _ _ (by decide)

/-!
## Claims C4 and C5 (policy denial responses)
-/

/-- Projection of an error body used by shape statements: the nested
error object's type, code, and whether a message is present. -/
def errorBodyTriple (j : Json) :
    Option (Option (List Char) × Option (List Char) × Bool) :=
  (j.get (chars "error")).map
    (fun e => (e.getStr (chars "type"), e.getStr (chars "code"),
               (e.getStr (chars "message")).isSome))

/-- A sample compiled pattern: an escaped-literal regex for one key
shape, firing on a single occurrence. -/
def patApiKey : CompiledDlpPattern :=
  { name := chars "apikey", pattern_type := chars "regex",
    matchers := [literalMatches (chars "sk-ABCDEFGH")],
    negMatch := fun _ => false, min_occurrences := 1, min_unique_chars := 0 }

/-- A Claude-shaped request body carrying the sample key in a user
message. -/
def dlpCexBody : List Char :=
  chars "\x7b\"messages\":[\x7b\"role\":\"user\",\"content\":\"use sk-ABCDEFGH here\"\x7d]\x7d"

/-- A custom OpenAI-compatible backend configuration with DLP enabled. -/
def cfgCustom : BackendCfg :=
  { name := chars "mycustom", rate_requests := 0, rate_minutes := 1,
    max_tokens := 0, token_action := chars "notify", dlp_enabled := true }

/-- A backend configuration with a one-token budget in block mode. -/
def cfgTokenBlock : BackendCfg :=
  { name := chars "claude", rate_requests := 0, rate_minutes := 1,
    max_tokens := 1, token_action := chars "block", dlp_enabled := false }

/-- A backend configuration with a one-request-per-minute rate limit. -/
def cfgRateOne : BackendCfg :=
  { name := chars "claude", rate_requests := 1, rate_minutes := 1,
    max_tokens := 0, token_action := chars "notify", dlp_enabled := false }

/-- A body of three whitespace-separated words (five estimated tokens). -/
def threeWordsBody : List Char := chars "one two three"

/-- C5 counterexample: a token-budget block denial carries status 429 but
its header list holds no Retry-After header, against the claim that every
429 policy denial carries one. -/
theorem C5_token_block_lacks_retry_after_cex :
    ((policyGate seedId [] cfgTokenBlock (chars "redact") true [] 0
        threeWordsBody).1).denyStatus = some 429 ∧
    ((policyGate seedId [] cfgTokenBlock (chars "redact") true [] 0
        threeWordsBody).1).denyHeaders.map
      (fun hs => lookupHeader hs (chars "Retry-After")) = some none := by decide

/-- C5 amended: both denial families answer 429 with the claimed
rate_limit_error body shape and their respective codes, but only the
rate-limit denial carries the Retry-After header with the window in
seconds; the token-budget block denial has no Retry-After header. -/
theorem C5_429_denial_shapes_amended (seedF : Nat → Nat)
    (patterns : List CompiledDlpPattern) (cfg : BackendCfg)
    (gact : List Char) (should_log : Bool) (limiter : List Nat) (now : Nat)
    (body : List Char) :
    (0 < cfg.rate_requests →
     (check_and_record limiter now cfg.rate_requests cfg.rate_minutes).1 = false →
     (policyGate seedF patterns cfg gact should_log limiter now body).1 =
       .deny (rate_limit_response cfg.rate_requests cfg.rate_minutes)
     ∧ (rate_limit_response cfg.rate_requests cfg.rate_minutes).status = 429
     ∧ lookupHeader (rate_limit_response cfg.rate_requests cfg.rate_minutes).headers
         (chars "Retry-After") = some (natToChars (cfg.rate_minutes * 60))
     ∧ errorBodyTriple (rate_limit_response cfg.rate_requests cfg.rate_minutes).body =
         some (some (chars "rate_limit_error"),
               some (chars "rate_limit_exceeded"), true))
    ∧ ((cfg.rate_requests = 0 ∨
        (check_and_record limiter now cfg.rate_requests cfg.rate_minutes).1 = true) →
       0 < cfg.max_tokens → should_log = true →
       cfg.max_tokens < estimate_tokens body →
       cfg.token_action = chars "block" →
       (policyGate seedF patterns cfg gact should_log limiter now body).1 =
         .deny (token_limit_response (estimate_tokens body) cfg.max_tokens)
       ∧ (token_limit_response (estimate_tokens body) cfg.max_tokens).status = 429
       ∧ lookupHeader (token_limit_response (estimate_tokens body) cfg.max_tokens).headers
           (chars "Retry-After") = none
       ∧ errorBodyTriple (token_limit_response (estimate_tokens body) cfg.max_tokens).body =
           some (some (chars "rate_limit_error"),
                 some (chars "token_limit_exceeded"), true)) := by
  constructor
  · intro h1 h2
    refine ⟨?_, rfl, rfl, rfl⟩
    simp [policyGate, h1, h2]
  · intro hr hm hl he ha
    have htok : tokenStage seedF patterns cfg gact should_log body =
        .deny (token_limit_response (estimate_tokens body) cfg.max_tokens) := by
      simp [tokenStage, hm, hl, he, ha]
    refine ⟨?_, rfl, rfl, rfl⟩
    rcases hr with hr | hr
    · have h0 : ¬ 0 < cfg.rate_requests := by omega
      simp [policyGate, h0, htok]
    · by_cases h1 : 0 < cfg.rate_requests
      · simp [policyGate, h1, hr, htok]
      · simp [policyGate, h1, htok]

/-- Witness for the amended C5 at a concrete rate-limit denial. -/
theorem C5_429_denial_shapes_amended_witness :
    (policyGate seedId [] cfgRateOne (chars "redact") true [5] 6
        threeWordsBody).1 = .deny (rate_limit_response 1 1)
    ∧ (rate_limit_response 1 1).status = 429
    ∧ lookupHeader (rate_limit_response 1 1).headers (chars "Retry-After") =
        some (natToChars (1 * 60))
    ∧ errorBodyTriple (rate_limit_response 1 1).body =
        some (some (chars "rate_limit_error"),
              some (chars "rate_limit_exceeded"), true) :=
  (C5_429_denial_shapes_amended seedId [] cfgRateOne (chars "redact") true
    [5] 6 threeWordsBody).1 (by decide) (by decide)

/-- C4 counterexample: a DLP-block denial for a custom OpenAI-compatible
backend answers 400 with the Claude error shape, not the Codex/OpenAI
shape the claim assigns to custom backends. -/
theorem C4_custom_backend_gets_claude_shape_cex :
    ((policyGate seedId [patApiKey] cfgCustom (chars "block") true [] 0
        dlpCexBody).1).denyStatus = some 400 ∧
    ((policyGate seedId [patApiKey] cfgCustom (chars "block") true [] 0
        dlpCexBody).1).denyBody.map isCodexErrorShape = some false ∧
    ((policyGate seedId [patApiKey] cfgCustom (chars "block") true [] 0
        dlpCexBody).1).denyBody.map isClaudeErrorShape = some true := by decide

/-- C4 amended: with DLP enabled, global action block and at least one
detection, the request is denied with HTTP 400; the backend named codex
receives the Codex/OpenAI error shape and every other backend, custom
OpenAI-compatible backends included, receives the Claude error shape. -/
theorem C4_dlp_block_shapes_amended (seedF : Nat → Nat)
    (patterns : List CompiledDlpPattern) (cfg : BackendCfg)
    (gact : List Char) (body : List Char) (notify : Bool)
    (hdlp : cfg.dlp_enabled = true) (hact : gact = chars "block")
    (hdet : (apply_dlp_redaction seedF patterns body).detections ≠ []) :
    dlpStage seedF patterns cfg gact body notify =
      .deny (dlp_block_response cfg.name
        (apply_dlp_redaction seedF patterns body).detections)
    ∧ (dlp_block_response cfg.name
        (apply_dlp_redaction seedF patterns body).detections).status = 400
    ∧ (cfg.name = chars "codex" →
       (dlp_block_response cfg.name
         (apply_dlp_redaction seedF patterns body).detections).body =
         create_codex_error_response (format_detection_patterns
           (apply_dlp_redaction seedF patterns body).detections))
    ∧ (cfg.name ≠ chars "codex" →
       (dlp_block_response cfg.name
         (apply_dlp_redaction seedF patterns body).detections).body =
         create_claude_error_response (format_detection_patterns
           (apply_dlp_redaction seedF patterns body).detections)) := by
  refine ⟨?_, rfl, ?_, ?_⟩
  · simp [dlpStage, hdlp, hact, hdet]
  · intro h; simp [dlp_block_response, h]
  · intro h; simp [dlp_block_response, h]

/-- Witness for the amended C4 at a concrete blocked request of a custom
backend. -/
theorem C4_dlp_block_shapes_amended_witness :
    dlpStage seedId [patApiKey] cfgCustom (chars "block") dlpCexBody false =
      .deny (dlp_block_response cfgCustom.name
        (apply_dlp_redaction seedId [patApiKey] dlpCexBody).detections) :=
  (C4_dlp_block_shapes_amended seedId [patApiKey] cfgCustom (chars "block")
    dlpCexBody false rfl rfl (by decide)).1

/-!
## Claim C7 (sliding-window rate limiting)
-/

/-- With max_requests zero the limiter admits every request and leaves
its stored state untouched. -/
lemma runLimiter_zero (W : Nat) :
    ∀ (times state admitted : List Nat),
      runLimiter 0 W times state admitted = (state, admitted ++ times) := by
  intro times
  induction times with
  | nil => intro state admitted; simp [runLimiter]
  | cons t rest ih =>
    intro state admitted
    simp only [runLimiter, check_and_record, if_pos rfl]
    rw [ih]
    simp

/-- Window invariant of the limiter run: after processing nondecreasing
call times, the stored state holds at most N entries and every admitted
time still inside the window of the last processed time is present in
the stored state. -/
lemma runLimiter_window_invariant (N W : Nat) (hN : 0 < N) :
    ∀ (times : List Nat) (bound : Nat) (state admitted : List Nat),
      List.Pairwise (· ≤ ·) times →
      (∀ x ∈ times, bound ≤ x) →
      state.length ≤ N →
      (admitted.filter (fun x => decide (bound - W * 60 < x))).Sublist state →
      ∃ bound2, (bound2 = bound ∨ bound2 ∈ times) ∧ bound ≤ bound2 ∧
        (∀ x ∈ times, x ≤ bound2) ∧
        (runLimiter N W times state admitted).1.length ≤ N ∧
        ((runLimiter N W times state admitted).2.filter
            (fun x => decide (bound2 - W * 60 < x))).Sublist
          (runLimiter N W times state admitted).1 := by
  intro times
  induction times with
  | nil =>
    intro bound state admitted _ _ hlen hsub
    exact ⟨bound, Or.inl rfl, le_refl _, by simp, hlen, hsub⟩
  | cons u rest ih =>
    intro bound state admitted hpw hb hlen hsub
    have hbu : bound ≤ u := hb u (List.mem_cons_self u rest)
    have hrest_pw := hpw.of_cons
    have hu_rest : ∀ x ∈ rest, u ≤ x := (List.pairwise_cons.mp hpw).1
    have hN0 : ¬ N = 0 := by omega
    have hfilter_eq : admitted.filter (fun x => decide (u - W * 60 < x)) =
        (admitted.filter (fun x => decide (u - W * 60 < x))).filter
          (fun x => decide (bound - W * 60 < x)) := by
      rw [List.filter_filter]
      apply List.filter_congr
      intro x _
      cases h1 : decide (u - W * 60 < x) with
      | false => simp
      | true =>
        have h2 : decide (bound - W * 60 < x) = true := by
          simp only [decide_eq_true_eq] at h1 ⊢
          have : bound - W * 60 ≤ u - W * 60 := Nat.sub_le_sub_right hbu _
          omega
        simp [h2]
    have hsub_u : (admitted.filter (fun x => decide (u - W * 60 < x))).Sublist
        (state.filter (fun x => decide (u - W * 60 < x))) := by
      rw [hfilter_eq, List.filter_comm]
      exact hsub.filter _
    by_cases hallow : N ≤ (state.filter (fun x => decide (u - W * 60 < x))).length
    · have hcr : check_and_record state u N W =
          (false, state.filter (fun x => decide (u - W * 60 < x))) := by
        simp [check_and_record, hN0, hallow]
      have hrun : runLimiter N W (u :: rest) state admitted =
          runLimiter N W rest
            (state.filter (fun x => decide (u - W * 60 < x))) admitted := by
        simp [runLimiter, hcr]
      rw [hrun]
      have hlen2 : (state.filter (fun x => decide (u - W * 60 < x))).length ≤ N :=
        le_trans (List.length_filter_le _ _) hlen
      obtain ⟨b2, hb2mem, hb2ge, hb2ub, hfin1, hfin2⟩ :=
        ih u (state.filter (fun x => decide (u - W * 60 < x))) admitted
          hrest_pw hu_rest hlen2 hsub_u
      refine ⟨b2, ?_, le_trans hbu hb2ge, ?_, hfin1, hfin2⟩
      · rcases hb2mem with h | h
        · exact Or.inr (h ▸ List.mem_cons_self u rest)
        · exact Or.inr (List.mem_cons_of_mem u h)
      · intro x hx
        rcases List.mem_cons.mp hx with h | h
        · exact h ▸ hb2ge
        · exact hb2ub x h
    · have hcr : check_and_record state u N W =
          (true, state.filter (fun x => decide (u - W * 60 < x)) ++ [u]) := by
        simp [check_and_record, hN0, hallow]
      have hrun : runLimiter N W (u :: rest) state admitted =
          runLimiter N W rest
            (state.filter (fun x => decide (u - W * 60 < x)) ++ [u])
            (admitted ++ [u]) := by
        simp [runLimiter, hcr]
      rw [hrun]
      have hlenf : (state.filter (fun x => decide (u - W * 60 < x))).length < N := by
        omega
      have hlen2 : (state.filter (fun x => decide (u - W * 60 < x)) ++ [u]).length ≤ N := by
        simp
        omega
      have hsub2 : ((admitted ++ [u]).filter (fun x => decide (u - W * 60 < x))).Sublist
          (state.filter (fun x => decide (u - W * 60 < x)) ++ [u]) := by
        rw [List.filter_append]
        exact List.Sublist.append hsub_u (List.filter_sublist _)
      obtain ⟨b2, hb2mem, hb2ge, hb2ub, hfin1, hfin2⟩ :=
        ih u (state.filter (fun x => decide (u - W * 60 < x)) ++ [u])
          (admitted ++ [u]) hrest_pw hu_rest hlen2 hsub2
      refine ⟨b2, ?_, le_trans hbu hb2ge, ?_, hfin1, hfin2⟩
      · rcases hb2mem with h | h
        · exact Or.inr (h ▸ List.mem_cons_self u rest)
        · exact Or.inr (List.mem_cons_of_mem u h)
      · intro x hx
        rcases List.mem_cons.mp hx with h | h
        · exact h ▸ hb2ge
        · exact hb2ub x h

/-- C7: for a limiter configured with max_requests N > 0 and window W
minutes, at any instant t at or after the last call, the number of
admitted requests whose timestamps lie in (t - 60 W, t] is at most N;
and with N = 0 every request is admitted. -/
theorem C7_sliding_window_bound (N W : Nat) (times : List Nat) (t : Nat)
    (hsorted : List.Pairwise (· ≤ ·) times)
    (ht : ∀ x ∈ times, x ≤ t) :
    (0 < N → countInWindow t (W * 60) (runLimiter N W times [] []).2 ≤ N)
    ∧ (N = 0 → (runLimiter N W times [] []).2 = times) := by
  constructor
  · intro hN
    obtain ⟨b2, hb2mem, _, _, hlen, hsub⟩ :=
      runLimiter_window_invariant N W hN times 0 [] [] hsorted
        (fun x _ => Nat.zero_le x) (by simp) (by simp)
    have hb2t : b2 ≤ t := by
      rcases hb2mem with h | h
      · subst h; exact Nat.zero_le t
      · exact ht b2 h
    have hmono : ∀ x : Nat,
        (decide (t - W * 60 < x) && decide (x ≤ t)) = true →
        decide (b2 - W * 60 < x) = true := by
      intro x hx
      simp only [Bool.and_eq_true, decide_eq_true_eq] at hx ⊢
      have : b2 - W * 60 ≤ t - W * 60 := Nat.sub_le_sub_right hb2t _
      omega
    unfold countInWindow
    calc ((runLimiter N W times [] []).2.filter
            (fun x => decide (t - W * 60 < x) && decide (x ≤ t))).length
        ≤ ((runLimiter N W times [] []).2.filter
            (fun x => decide (b2 - W * 60 < x))).length :=
          (List.monotone_filter_right _ hmono).length_le
      _ ≤ (runLimiter N W times [] []).1.length := hsub.length_le
      _ ≤ N := hlen
  · intro h0
    subst h0
    rw [runLimiter_zero]
    simp

/-- Witness for C7 at a concrete call trace. -/
theorem C7_sliding_window_bound_witness :
    countInWindow 30 60 (runLimiter 2 1 [10, 20, 30] [] []).2 ≤ 2 :=
  (C7_sliding_window_bound 2 1 [10, 20, 30] 30 (by decide) (by decide)).1 (by decide)

/-!
## Claim C6 (placeholder shape and reuse)
-/

/-- A freshly generated lowercase replacement character is lowercase. -/
lemma charClass_ofNat_lower (s : Nat) :
    charClass (Char.ofNat (97 + s % 26)) = CharClass.lower := by
  have h : s % 26 < 26 := Nat.mod_lt _ (by omega)
  generalize s % 26 = k at h ⊢
  interval_cases k <;> decide

/-- A freshly generated uppercase replacement character is uppercase. -/
lemma charClass_ofNat_upper (s : Nat) :
    charClass (Char.ofNat (65 + s % 26)) = CharClass.upper := by
  have h : s % 26 < 26 := Nat.mod_lt _ (by omega)
  generalize s % 26 = k at h ⊢
  interval_cases k <;> decide

/-- A freshly generated digit replacement character is a digit. -/
lemma charClass_ofNat_digit (s : Nat) :
    charClass (Char.ofNat (48 + s % 10)) = CharClass.digit := by
  have h : s % 10 < 10 := Nat.mod_lt _ (by omega)
  generalize s % 10 = k at h ⊢
  interval_cases k <;> decide

/-- Pointwise shape preservation of the placeholder walk: every position
keeps its character class and non-ASCII-alphanumeric characters are kept
verbatim. -/
lemma placeholder_shape (seed : Nat) (o : List Char) :
    List.Forall₂
      (fun p c => charClass p = charClass c ∧
        (charClass c = CharClass.other → p = c))
      (placeholderChars seed o) o := by
  induction o generalizing seed with
  | nil => simp [placeholderChars]
  | cons c rest ih =>
    simp only [placeholderChars]
    split_ifs with h1 h2 h3
    · refine List.Forall₂.cons ⟨?_, ?_⟩ (ih _)
      · rw [charClass_ofNat_lower]
        simp [charClass, h1]
      · intro hother
        simp [charClass, h1] at hother
    · refine List.Forall₂.cons ⟨?_, ?_⟩ (ih _)
      · rw [charClass_ofNat_upper]
        simp [charClass, h1, h2]
      · intro hother
        simp [charClass, h1, h2] at hother
    · refine List.Forall₂.cons ⟨?_, ?_⟩ (ih _)
      · rw [charClass_ofNat_digit]
        simp [charClass, h1, h2, h3]
      · intro hother
        simp [charClass, h1, h2, h3] at hother
    · exact List.Forall₂.cons ⟨rfl, fun _ => rfl⟩ (ih _)



/-- Invariant: the replacement map never binds the same original twice. -/
def DistinctOriginals (st : RedactState) : Prop :=
  st.replacements.Pairwise (fun a b => a.2 ≠ b.2)

/-- Collision-free goodness: as long as no minted placeholder has
overwritten an existing placeholder key, the map has pairwise-distinct
originals and every recorded assignment is still present as a binding of
the map. -/
def GoodNoCollision (st : RedactState) : Prop :=
  st.collided = false →
    DistinctOriginals st ∧
    ∀ pr ∈ st.assignments, (pr.2, pr.1) ∈ st.replacements

/-- A fold preserves any predicate its step preserves. -/
lemma foldl_preserve {α β : Type} (P : β → Prop) (f : β → α → β)
    (hstep : ∀ b a, P b → P (f b a)) :
    ∀ (l : List α) (b : β), P b → P (l.foldl f b) := by
  intro l
  induction l with
  | nil => intro b h; exact h
  | cons a t ih => intro b h; exact ih (f b a) (hstep b a h)

/-- Closure of a state predicate under single processMatch steps. -/
def StepClosed (seedF : Nat → Nat) (P : RedactState → Prop) : Prop :=
  ∀ (pat : CompiledDlpPattern) (mi : Option Int)
    (acc : List Char × RedactState) (matched : List Char),
    P acc.2 → P (processMatch seedF pat mi acc matched).2

/-- A step-closed predicate is preserved through one pattern. -/
lemma processPattern_preserve (seedF : Nat → Nat) (P : RedactState → Prop)
    (hP : StepClosed seedF P) (mi : Option Int)
    (acc : List Char × RedactState) (pat : CompiledDlpPattern)
    (h : P acc.2) : P (processPattern seedF mi acc pat).2 := by
  simp only [processPattern]
  split_ifs with h1
  · exact h
  · exact foldl_preserve (fun a => P a.2) _
      (fun b a hb => hP pat mi b a hb) _ acc h

/-- A step-closed predicate is preserved through redact_text. -/
lemma redact_text_preserve (seedF : Nat → Nat) (P : RedactState → Prop)
    (hP : StepClosed seedF P) (patterns : List CompiledDlpPattern)
    (mi : Option Int) (text : List Char) (st : RedactState) (h : P st) :
    P (redact_text seedF patterns mi text st).2 :=
  foldl_preserve (fun a => P a.2) _
    (fun b a hb => processPattern_preserve seedF P hP mi b a hb)
    patterns (text, st) h

mutual
/-- A step-closed predicate is preserved by the recursive traversal. -/
theorem redactValue_preserve (seedF : Nat → Nat) (P : RedactState → Prop)
    (hP : StepClosed seedF P) (patterns : List CompiledDlpPattern)
    (mi : Option Int) :
    ∀ (v : Json) (st : RedactState), P st →
      P (redactValue seedF patterns mi v st).2
  | .null, _, h => h
  | .bool _, _, h => h
  | .num _, _, h => h
  | .str s, st, h => redact_text_preserve seedF P hP patterns mi s st h
  | .arr items, st, h => redactArr_preserve seedF P hP patterns mi items st h
  | .obj fields, st, h => redactObj_preserve seedF P hP patterns mi fields st h
/-- Array case of the generic preservation. -/
theorem redactArr_preserve (seedF : Nat → Nat) (P : RedactState → Prop)
    (hP : StepClosed seedF P) (patterns : List CompiledDlpPattern)
    (mi : Option Int) :
    ∀ (items : JsonArr) (st : RedactState), P st →
      P (redactArr seedF patterns mi items st).2
  | .nil, _, h => h
  | .cons hd tl, st, h =>
    redactArr_preserve seedF P hP patterns mi tl _
      (redactValue_preserve seedF P hP patterns mi hd st h)
/-- Object case of the generic preservation. -/
theorem redactObj_preserve (seedF : Nat → Nat) (P : RedactState → Prop)
    (hP : StepClosed seedF P) (patterns : List CompiledDlpPattern)
    (mi : Option Int) :
    ∀ (fields : JsonObj) (st : RedactState), P st →
      P (redactObj seedF patterns mi fields st).2
  | .cnil, _, h => h
  | .cons _ v tl, st, h =>
    redactObj_preserve seedF P hP patterns mi tl _
      (redactValue_preserve seedF P hP patterns mi v st h)
end

/-- One Claude message step preserves a step-closed predicate. -/
lemma processMessage_preserve (seedF : Nat → Nat) (P : RedactState → Prop)
    (hP : StepClosed seedF P) (patterns : List CompiledDlpPattern)
    (idx : Nat) (m : Json) (st : RedactState) (h : P st) :
    P (processMessage seedF patterns idx m st).2 := by
  unfold processMessage
  split_ifs with h1
  · exact h
  · rcases m.get (chars "content") with _ | c
    · exact h
    · exact redactValue_preserve seedF P hP patterns _ c st h

/-- The Claude messages walk preserves a step-closed predicate. -/
lemma processMessages_preserve (seedF : Nat → Nat) (P : RedactState → Prop)
    (hP : StepClosed seedF P) (patterns : List CompiledDlpPattern) :
    ∀ (idx : Nat) (msgs : JsonArr) (st : RedactState), P st →
      P (processMessages seedF patterns idx msgs st).2
  | _, .nil, _, h => h
  | idx, .cons m t, st, h =>
    processMessages_preserve seedF P hP patterns (idx + 1) t _
      (processMessage_preserve seedF P hP patterns idx m st h)

/-- One Codex input item step preserves a step-closed predicate. -/
lemma processInputItem_preserve (seedF : Nat → Nat) (P : RedactState → Prop)
    (hP : StepClosed seedF P) (patterns : List CompiledDlpPattern)
    (idx : Nat) (item : Json) (st : RedactState) (h : P st) :
    P (processInputItem seedF patterns idx item st).2 := by
  unfold processInputItem
  split_ifs with h1 h2 h3
  · exact h
  · rcases item.get (chars "content") with _ | c
    · exact h
    · exact redactValue_preserve seedF P hP patterns _ c st h
  · rcases item.get (chars "output") with _ | o
    · exact h
    · exact redactValue_preserve seedF P hP patterns _ o st h
  · exact h

/-- The Codex input walk preserves a step-closed predicate. -/
lemma processInput_preserve (seedF : Nat → Nat) (P : RedactState → Prop)
    (hP : StepClosed seedF P) (patterns : List CompiledDlpPattern) :
    ∀ (idx : Nat) (inp : JsonArr) (st : RedactState), P st →
      P (processInput seedF patterns idx inp st).2
  | _, .nil, _, h => h
  | idx, .cons item t, st, h =>
    processInput_preserve seedF P hP patterns (idx + 1) t _
      (processInputItem_preserve seedF P hP patterns idx item st h)

/-- A step-closed predicate holding initially holds after the whole
document walk. -/
lemma redactionRun_preserve (seedF : Nat → Nat) (P : RedactState → Prop)
    (hP : StepClosed seedF P) (patterns : List CompiledDlpPattern)
    (j : Json) (h0 : P initState) : P (redactionRun seedF patterns j).2 := by
  unfold redactionRun
  rcases hm : j.getArr (chars "messages") with _ | msgs
  · rcases hi : j.getArr (chars "input") with _ | inp
    · simpa [hm, hi] using h0
    · simp only [hm, hi]
      exact processInput_preserve seedF P hP patterns 0 inp initState h0
  · rcases hi : (j.setField (chars "messages")
        (.arr (processMessages seedF patterns 0 msgs initState).1)).getArr
        (chars "input") with _ | inp
    · simp only [hm, hi]
      exact processMessages_preserve seedF P hP patterns 0 msgs initState h0
    · simp only [hm, hi]
      exact processInput_preserve seedF P hP patterns 0 inp _
        (processMessages_preserve seedF P hP patterns 0 msgs initState h0)

/-- A step-closed predicate holding initially holds for the final state
of any request. -/
lemma redactionStateOf_preserve (seedF : Nat → Nat) (P : RedactState → Prop)
    (hP : StepClosed seedF P) (patterns : List CompiledDlpPattern)
    (body : List Char) (h0 : P initState) :
    P (redactionStateOf seedF patterns body) := by
  unfold redactionStateOf
  split_ifs with h1
  · exact h0
  · rcases hp : parseJson body with _ | j
    · exact h0
    · exact redactionRun_preserve seedF P hP patterns j h0

/-- Every entry of an insert result either carries the inserted value or
was already present. -/
lemma mem_mapInsert (key val : List Char) :
    ∀ (l : List (List Char × List Char)) (b : List Char × List Char),
      b ∈ (mapInsert key val l).1 → b.2 = val ∨ b ∈ l
  | [], b => by
    intro hb
    simp only [mapInsert, List.mem_singleton] at hb
    subst hb
    exact Or.inl rfl
  | (k, v) :: t, b => by
    intro hb
    by_cases h0 : k = key
    · simp only [mapInsert, if_pos h0] at hb
      rcases List.mem_cons.mp hb with e | m
      · subst e; exact Or.inl rfl
      · exact Or.inr (List.mem_cons_of_mem _ m)
    · simp only [mapInsert, if_neg h0] at hb
      rcases List.mem_cons.mp hb with e | m
      · subst e; exact Or.inr (List.mem_cons_self _ _)
      · rcases mem_mapInsert key val t b m with h | h
        · exact Or.inl h
        · exact Or.inr (List.mem_cons_of_mem _ h)

/-- An insert that reported no overwrite appended a fresh binding. -/
lemma mapInsert_no_overwrite (key val : List Char) :
    ∀ l : List (List Char × List Char),
      (mapInsert key val l).2 = false →
      (mapInsert key val l).1 = l ++ [(key, val)]
  | [] => fun _ => rfl
  | (k, v) :: t => by
    intro h
    by_cases h0 : k = key
    · simp [mapInsert, h0] at h
    · simp only [mapInsert, if_neg h0] at h ⊢
      rw [mapInsert_no_overwrite key val t h]
      simp

/-- Inserting a value absent from the map keeps originals pairwise
distinct, whether or not the key overwrites. -/
lemma mapInsert_distinct (key val : List Char) :
    ∀ l : List (List Char × List Char),
      l.Pairwise (fun a b => a.2 ≠ b.2) → (∀ pr ∈ l, pr.2 ≠ val) →
      (mapInsert key val l).1.Pairwise (fun a b => a.2 ≠ b.2)
  | [] => fun _ _ => List.pairwise_singleton _ _
  | (k, v) :: t => by
    intro hpw hfresh
    have hx := (List.pairwise_cons.mp hpw).1
    have ht := (List.pairwise_cons.mp hpw).2
    by_cases h0 : k = key
    · simp only [mapInsert, if_pos h0]
      refine List.pairwise_cons.mpr ⟨?_, ht⟩
      intro b hb he
      exact hfresh b (List.mem_cons_of_mem _ hb) he.symm
    · simp only [mapInsert, if_neg h0]
      refine List.pairwise_cons.mpr ⟨?_, ?_⟩
      · intro b hb
        rcases mem_mapInsert key val t b hb with h | h
        · rw [h]
          exact hfresh (k, v) (List.mem_cons_self _ _)
        · exact hx b h
      · exact mapInsert_distinct key val t ht
          (fun pr hpr => hfresh pr (List.mem_cons_of_mem _ hpr))

/-- One match step preserves distinctness of originals: a new binding is
inserted only after the lookup by value fails, and an overwrite removes
a value without ever duplicating one. -/
lemma processMatch_distinct (seedF : Nat → Nat) :
    StepClosed seedF DistinctOriginals := by
  intro pat mi acc matched h
  unfold processMatch
  split_ifs with h1 h2
  · exact h
  · exact h
  · rcases hf : acc.2.replacements.find? (fun pr => pr.2 == matched) with _ | pr
    · simp only [hf]
      exact mapInsert_distinct _ matched acc.2.replacements h
        (fun a ha => by simpa using List.find?_eq_none.mp hf a ha)
    · simp only [hf]
      exact h

/-- One match step preserves collision-free goodness: a reused
placeholder comes from the map, and a collision-free mint appends the
assigned binding. -/
lemma processMatch_good (seedF : Nat → Nat) :
    StepClosed seedF GoodNoCollision := by
  intro pat mi acc matched h
  unfold processMatch
  split_ifs with h1 h2
  · exact h
  · exact h
  · rcases hf : acc.2.replacements.find? (fun pr => pr.2 == matched) with _ | pr
    · -- mint branch
      simp only [hf]
      intro hcol
      have hcol2 : (acc.2.collided ||
          (mapInsert (create_placeholder seedF acc.2.counter matched) matched
            acc.2.replacements).2) = false := hcol
      rw [Bool.or_eq_false_iff] at hcol2
      obtain ⟨hd, ha⟩ := h hcol2.1
      constructor
      · show ((mapInsert (create_placeholder seedF acc.2.counter matched)
            matched acc.2.replacements).1).Pairwise (fun a b => a.2 ≠ b.2)
        exact mapInsert_distinct _ matched acc.2.replacements hd
          (fun a haa => by simpa using List.find?_eq_none.mp hf a haa)
      · intro pr hpr
        rcases List.mem_append.mp hpr with hm | hm
        · rw [mapInsert_no_overwrite _ _ _ hcol2.2]
          exact List.mem_append_left _ (ha pr hm)
        · simp only [List.mem_singleton] at hm
          subst hm
          rw [mapInsert_no_overwrite _ _ _ hcol2.2]
          exact List.mem_append_right _ (List.mem_singleton.mpr rfl)
    · -- found branch: the map is unchanged and the assignment reuses
      -- the binding the lookup returned
      simp only [hf]
      intro hcol
      obtain ⟨hd, ha⟩ := h hcol
      refine ⟨hd, ?_⟩
      intro q hq
      rcases List.mem_append.mp hq with hm | hm
      · exact ha q hm
      · simp only [List.mem_singleton] at hm
        subst hm
        have hmem := List.mem_of_find?_eq_some hf
        have hval : pr.2 = matched := by
          have := List.find?_some hf
          simpa using this
        show (pr.1, matched) ∈ acc.2.replacements
        rw [← hval]
        exact hmem

/-- The map of a whole request has pairwise-distinct originals. -/
lemma redactionState_distinct (seedF : Nat → Nat)
    (patterns : List CompiledDlpPattern) (body : List Char) :
    DistinctOriginals (redactionStateOf seedF patterns body) :=
  redactionStateOf_preserve seedF DistinctOriginals
    (processMatch_distinct seedF) patterns body List.Pairwise.nil

/-- Collision-free goodness of a whole request. -/
lemma redactionState_good (seedF : Nat → Nat)
    (patterns : List CompiledDlpPattern) (body : List Char) :
    GoodNoCollision (redactionStateOf seedF patterns body) :=
  redactionStateOf_preserve seedF GoodNoCollision
    (processMatch_good seedF) patterns body
    (fun _ => ⟨List.Pairwise.nil, fun pr hpr => by simp [initState] at hpr⟩)

/-- The replacements of the redaction result are those of the final
state. -/
lemma apply_dlp_redaction_replacements (seedF : Nat → Nat)
    (patterns : List CompiledDlpPattern) (body : List Char) :
    (apply_dlp_redaction seedF patterns body).replacements =
      (redactionStateOf seedF patterns body).replacements := by
  unfold apply_dlp_redaction redactionStateOf
  split_ifs with h1
  · rfl
  · cases hp : parseJson body with
    | none => simp [hp, initState]
    | some j => simp [hp]

/-- A pairwise value-distinct association list is functional from values
to keys. -/
lemma pairwise_value_inj :
    ∀ (l : List (List Char × List Char)),
      l.Pairwise (fun a b => a.2 ≠ b.2) →
      ∀ p1 p2 o, (p1, o) ∈ l → (p2, o) ∈ l → p1 = p2 := by
  intro l
  induction l with
  | nil => intro _ p1 p2 o h1; simp at h1
  | cons x t ih =>
    intro hpw p1 p2 o h1 h2
    have hx := (List.pairwise_cons.mp hpw).1
    have ht := (List.pairwise_cons.mp hpw).2
    rcases List.mem_cons.mp h1 with e1 | m1 <;>
      rcases List.mem_cons.mp h2 with e2 | m2
    · exact (Prod.ext_iff.mp (e1.trans e2.symm)).1
    · exfalso
      have := hx (p2, o) m2
      rw [← e1] at this
      exact this rfl
    · exfalso
      have := hx (p1, o) m1
      rw [← e2] at this
      exact this rfl
    · exact ih ht p1 p2 o m1 m2

/-- Seed function of the collision counterexample: counters 1 and 2 get
seed 0 (both mint the single-character placeholder b), counter 3 gets
seed 1 (minting e). -/
def cexSeed6 : Nat → Nat := fun n => if n = 3 then 1 else 0

/-- Literal pattern matching the single letter a. -/
def patSingleA : CompiledDlpPattern :=
  { name := chars "pa", pattern_type := chars "regex",
    matchers := [literalMatches (chars "a")],
    negMatch := fun _ => false, min_occurrences := 1, min_unique_chars := 0 }

/-- Literal pattern matching the single letter b. -/
def patSingleB : CompiledDlpPattern :=
  { name := chars "pb", pattern_type := chars "regex",
    matchers := [literalMatches (chars "b")],
    negMatch := fun _ => false, min_occurrences := 1, min_unique_chars := 0 }

/-- A Claude request whose user content is the two equal strings a and
a. -/
def cexBody6 : List Char :=
  chars "\x7b\"messages\":[\x7b\"role\":\"user\",\"content\":[\"a\",\"a\"]\x7d]\x7d"

/-- The first two content strings of the first message of a body. -/
def firstTwoContent (body : List Char) : Option (List Char × List Char) :=
  match parseJson body with
  | some j =>
    match j.getArr (chars "messages") with
    | some (.cons m _) =>
      match m.get (chars "content") with
      | some (.arr (.cons (.str s1) (.cons (.str s2) _))) => some (s1, s2)
      | _ => none
    | _ => none
  | none => none

/-- C6 counterexample: the two content strings are both the original a,
yet the redacted body replaces them with two different placeholders.
Minting for a gives placeholder b; minting for b also gives placeholder
b, and HashMap::insert overwrites the key b, evicting the binding of a;
the second match of a then fails the lookup by value and is re-minted as
e.  The recorded assignment log shows a assigned b and then e. -/
theorem C6_collision_breaks_reuse_cex :
    firstTwoContent cexBody6 = some (chars "a", chars "a")
    ∧ (firstTwoContent (apply_dlp_redaction cexSeed6 [patSingleA, patSingleB]
        cexBody6).redacted_body).map (fun pr => decide (pr.1 = pr.2)) =
      some false
    ∧ (redactionStateOf cexSeed6 [patSingleA, patSingleB] cexBody6).assignments =
        [(chars "a", chars "b"), (chars "b", chars "b"),
         (chars "a", chars "e")] := by
  decide

/-- C6 amended: every minted placeholder has the length of its original
and keeps the character class at every index, other-class characters
verbatim (unconditional); the replacement map binds each original value
to at most one placeholder at any time; and two matches with identical
original values are assigned the same placeholder in every request in
which no freshly minted placeholder collides with an existing
placeholder key of the map - on such a collision HashMap::insert evicts
the earlier binding and the evicted original is later re-minted. -/
theorem C6_shape_and_collision_free_reuse :
    (∀ (seedF : Nat → Nat) (id : Nat) (o : List Char),
      (create_placeholder seedF id o).length = o.length
      ∧ ∀ (i : Nat) (h1 : i < (create_placeholder seedF id o).length)
          (h2 : i < o.length),
          charClass ((create_placeholder seedF id o).get ⟨i, h1⟩) =
            charClass (o.get ⟨i, h2⟩)
          ∧ (charClass (o.get ⟨i, h2⟩) = CharClass.other →
             (create_placeholder seedF id o).get ⟨i, h1⟩ = o.get ⟨i, h2⟩))
    ∧ (∀ (seedF : Nat → Nat) (patterns : List CompiledDlpPattern)
         (body : List Char) (p1 p2 o : List Char),
        (p1, o) ∈ (apply_dlp_redaction seedF patterns body).replacements →
        (p2, o) ∈ (apply_dlp_redaction seedF patterns body).replacements →
        p1 = p2)
    ∧ (∀ (seedF : Nat → Nat) (patterns : List CompiledDlpPattern)
         (body : List Char) (o p1 p2 : List Char),
        (redactionStateOf seedF patterns body).collided = false →
        (o, p1) ∈ (redactionStateOf seedF patterns body).assignments →
        (o, p2) ∈ (redactionStateOf seedF patterns body).assignments →
        p1 = p2) := by
  refine ⟨?_, ?_, ?_⟩
  · intro seedF id o
    have h := List.forall₂_iff_get.mp (placeholder_shape (seedF id) o)
    exact ⟨h.1, fun i h1 h2 => h.2 i h1 h2⟩
  · intro seedF patterns body p1 p2 o h1 h2
    rw [apply_dlp_redaction_replacements] at h1 h2
    exact pairwise_value_inj _
      (redactionState_distinct seedF patterns body) p1 p2 o h1 h2
  · intro seedF patterns body o p1 p2 hcol h1 h2
    obtain ⟨hd, ha⟩ := redactionState_good seedF patterns body hcol
    exact pairwise_value_inj _ hd p1 p2 o (ha (o, p1) h1) (ha (o, p2) h2)

/-- Witness for the amended C6 at a concrete original and a concrete
collision-free redacted request. -/
theorem C6_shape_and_collision_free_reuse_witness :
    (create_placeholder seedId 7 (chars "sk-AB12")).length =
      (chars "sk-AB12").length
    ∧ create_placeholder seedId 1 (chars "sk-ABCDEFGH") =
        create_placeholder seedId 1 (chars "sk-ABCDEFGH") :=
  ⟨(C6_shape_and_collision_free_reuse.1 seedId 7 (chars "sk-AB12")).1,
   C6_shape_and_collision_free_reuse.2.2 seedId [patApiKey] dlpCexBody
     (chars "sk-ABCDEFGH")
     (create_placeholder seedId 1 (chars "sk-ABCDEFGH"))
     (create_placeholder seedId 1 (chars "sk-ABCDEFGH"))
     (by decide) (by decide) (by decide)⟩

/-!
## Claim C3 (pass-through of non-chat bodies)
-/

/-- A valid-JSON body with no messages or input array, written with a
space that the compact re-serialization drops. -/
def passBody : List Char := chars "\x7b\"a\": \"b\"\x7d"

/-- The parse of passBody. -/
def passBodyJson : Json := Json.obj (.cons (chars "a") (.str (chars "b")) .cnil)

/-- C3 counterexample: with at least one enabled pattern, a valid-JSON
body without messages or input arrays comes back with an empty map and
no detections, but re-serialized: the returned bytes differ from the
input bytes, against the byte-for-byte part of the claim. -/
theorem C3_json_reserialization_cex :
    (parseJson passBody).isSome = true
    ∧ ((parseJson passBody).map
        (fun j => ((j.getArr (chars "messages")).isSome,
                   (j.getArr (chars "input")).isSome))) = some (false, false)
    ∧ (apply_dlp_redaction seedId [patApiKey] passBody).redacted_body ≠ passBody
    ∧ (apply_dlp_redaction seedId [patApiKey] passBody).replacements = []
    ∧ (apply_dlp_redaction seedId [patApiKey] passBody).detections = [] := by
  decide

/-- C3 amended: a body that does not parse as JSON is returned
byte-for-byte unchanged with an empty map and no detections; a
valid-JSON body with neither a messages array nor an input array is
returned with an empty map and no detections as the re-serialization of
its parsed document, which is semantically identical but not always
byte-identical. -/
theorem C3_passthrough_amended (seedF : Nat → Nat)
    (patterns : List CompiledDlpPattern) (body : List Char) :
    (parseJson body = none →
      apply_dlp_redaction seedF patterns body = ⟨body, [], []⟩)
    ∧ (∀ j : Json, patterns.isEmpty = false → parseJson body = some j →
        j.getArr (chars "messages") = none → j.getArr (chars "input") = none →
        apply_dlp_redaction seedF patterns body = ⟨j.render, [], []⟩) := by
  constructor
  · intro hp
    unfold apply_dlp_redaction
    split_ifs with h1
    · rfl
    · rw [hp]
  · intro j hne hp hm hi
    unfold apply_dlp_redaction
    rw [if_neg (by simp [hne]), hp]
    simp only [redactionRun, hm, hi]
    rfl

/-- Witness for the amended C3 at the concrete pass-through body. -/
theorem C3_passthrough_amended_witness :
    apply_dlp_redaction seedId [patApiKey] passBody =
      ⟨passBodyJson.render, [], []⟩ :=
  (C3_passthrough_amended seedId [patApiKey] passBody).2 passBodyJson rfl rfl rfl rfl

/-!
## Claim C8 (user-only redaction scope)
-/

mutual
/-- Values that agree everywhere except possibly inside string leaves. -/
inductive StrOnly : Json → Json → Prop where
  | null : StrOnly .null .null
  | bool (b : Bool) : StrOnly (.bool b) (.bool b)
  | num (n : Int) : StrOnly (.num n) (.num n)
  | str (s t : List Char) : StrOnly (.str s) (.str t)
  | arr {a b : JsonArr} : StrOnlyArr a b → StrOnly (.arr a) (.arr b)
  | obj {a b : JsonObj} : StrOnlyObj a b → StrOnly (.obj a) (.obj b)
inductive StrOnlyArr : JsonArr → JsonArr → Prop where
  | nil : StrOnlyArr .nil .nil
  | cons {h1 h2 : Json} {t1 t2 : JsonArr} :
      StrOnly h1 h2 → StrOnlyArr t1 t2 → StrOnlyArr (.cons h1 t1) (.cons h2 t2)
inductive StrOnlyObj : JsonObj → JsonObj → Prop where
  | cnil : StrOnlyObj .cnil .cnil
  | cons {k : List Char} {v1 v2 : Json} {t1 t2 : JsonObj} :
      StrOnly v1 v2 → StrOnlyObj t1 t2 →
      StrOnlyObj (.cons k v1 t1) (.cons k v2 t2)
end

mutual
/-- Reflexivity of the string-only relation. -/
theorem strOnly_refl : ∀ v : Json, StrOnly v v
  | .null => .null
  | .bool b => .bool b
  | .num n => .num n
  | .str s => .str s s
  | .arr a => .arr (strOnlyArr_refl a)
  | .obj f => .obj (strOnlyObj_refl f)
/-- Reflexivity on arrays. -/
theorem strOnlyArr_refl : ∀ a : JsonArr, StrOnlyArr a a
  | .nil => .nil
  | .cons h t => .cons (strOnly_refl h) (strOnlyArr_refl t)
/-- Reflexivity on objects. -/
theorem strOnlyObj_refl : ∀ f : JsonObj, StrOnlyObj f f
  | .cnil => .cnil
  | .cons _ v t => .cons (strOnly_refl v) (strOnlyObj_refl t)
end

mutual
/-- The recursive redaction changes a value at most inside string
leaves. -/
theorem redactValue_strOnly (seedF : Nat → Nat)
    (patterns : List CompiledDlpPattern) (mi : Option Int) :
    ∀ (v : Json) (st : RedactState),
      StrOnly v (redactValue seedF patterns mi v st).1
  | .null, _ => .null
  | .bool b, _ => .bool b
  | .num n, _ => .num n
  | .str s, _ => .str s _
  | .arr items, st => .arr (redactArr_strOnly seedF patterns mi items st)
  | .obj fields, st => .obj (redactObj_strOnly seedF patterns mi fields st)
/-- Array case of the string-only property. -/
theorem redactArr_strOnly (seedF : Nat → Nat)
    (patterns : List CompiledDlpPattern) (mi : Option Int) :
    ∀ (items : JsonArr) (st : RedactState),
      StrOnlyArr items (redactArr seedF patterns mi items st).1
  | .nil, _ => .nil
  | .cons h t, st =>
    .cons (redactValue_strOnly seedF patterns mi h st)
      (redactArr_strOnly seedF patterns mi t
        (redactValue seedF patterns mi h st).2)
/-- Object case of the string-only property. -/
theorem redactObj_strOnly (seedF : Nat → Nat)
    (patterns : List CompiledDlpPattern) (mi : Option Int) :
    ∀ (fields : JsonObj) (st : RedactState),
      StrOnlyObj fields (redactObj seedF patterns mi fields st).1
  | .cnil, _ => .cnil
  | .cons _ v t, st =>
    .cons (redactValue_strOnly seedF patterns mi v st)
      (redactObj_strOnly seedF patterns mi t
        (redactValue seedF patterns mi v st).2)
end

/-- Setting one key leaves every other key's lookup unchanged. -/
lemma obj_get_set_ne (key k : List Char) (v : Json) (h : k ≠ key) :
    ∀ f : JsonObj, JsonObj.get k (JsonObj.set key v f) = JsonObj.get k f
  | .cnil => rfl
  | .cons k0 v0 t => by
    by_cases h0 : k0 = key
    · simp only [JsonObj.set, if_pos h0, JsonObj.get]
      have hkk : ¬ k0 = k := by rw [h0]; exact fun hkk => h hkk.symm
      rw [if_neg hkk, if_neg hkk]
    · simp only [JsonObj.set, if_neg h0, JsonObj.get]
      by_cases h1 : k0 = k
      · rw [if_pos h1, if_pos h1]
      · rw [if_neg h1, if_neg h1, obj_get_set_ne key k v h t]

/-- Setting an existing key makes its lookup return the new value. -/
lemma obj_get_set_eq (key : List Char) (v c : Json) :
    ∀ f : JsonObj, JsonObj.get key f = some c →
      JsonObj.get key (JsonObj.set key v f) = some v
  | .cnil => by intro h; simp [JsonObj.get] at h
  | .cons k0 v0 t => by
    intro h
    by_cases h0 : k0 = key
    · simp only [JsonObj.set, if_pos h0, JsonObj.get]
    · simp only [JsonObj.set, if_neg h0, JsonObj.get] at h ⊢
      exact obj_get_set_eq key v c t h

/-- Relation on option values differing at most inside strings. -/
def OptStrOnly : Option Json → Option Json → Prop
  | none, none => True
  | some a, some b => StrOnly a b
  | _, _ => False

/-- Reflexivity of the option-level string-only relation. -/
lemma optStrOnly_refl : ∀ o : Option Json, OptStrOnly o o
  | none => trivial
  | some a => strOnly_refl a

/-- What one processed Claude message guarantees: non-user messages are
returned unchanged; user messages keep every field other than content
and change content at most inside string leaves. -/
def MsgPreserved (m m2 : Json) : Prop :=
  (roleOf m ≠ chars "user" → m2 = m)
  ∧ (∀ k, k ≠ chars "content" → m2.get k = m.get k)
  ∧ OptStrOnly (m.get (chars "content")) (m2.get (chars "content"))

/-- What one processed Codex input item guarantees: reasoning,
function_call and other unhandled types are unchanged, non-user messages
are unchanged, user messages change only content string leaves, and
function_call_output items change only output string leaves. -/
def ItemPreserved (it it2 : Json) : Prop :=
  (typeOf it ≠ chars "message" → typeOf it ≠ chars "function_call_output" →
    it2 = it)
  ∧ (typeOf it = chars "message" → roleOf it ≠ chars "user" → it2 = it)
  ∧ (typeOf it = chars "message" → roleOf it = chars "user" →
      (∀ k, k ≠ chars "content" → it2.get k = it.get k)
      ∧ OptStrOnly (it.get (chars "content")) (it2.get (chars "content")))
  ∧ (typeOf it = chars "function_call_output" →
      (∀ k, k ≠ chars "output" → it2.get k = it.get k)
      ∧ OptStrOnly (it.get (chars "output")) (it2.get (chars "output")))

/-- Pointwise lifting of a relation to the array type. -/
inductive ArrRel (R : Json → Json → Prop) : JsonArr → JsonArr → Prop where
  | nil : ArrRel R .nil .nil
  | cons {h1 h2 : Json} {t1 t2 : JsonArr} :
      R h1 h2 → ArrRel R t1 t2 → ArrRel R (.cons h1 t1) (.cons h2 t2)

/-- Field replacement never changes the lookup of a different key, on
any value. -/
lemma setField_get_ne (m : Json) (key k : List Char) (v : Json)
    (hk : k ≠ key) : (m.setField key v).get k = m.get k := by
  cases m <;> simp [Json.setField, Json.get]
  case obj f => exact obj_get_set_ne key k v hk f

/-- Field replacement leaves other fields readable unchanged. -/
lemma setField_preserves_ne (m : Json) (key k : List Char) (v c : Json)
    (hk : k ≠ key) (hc : m.get key = some c) :
    (m.setField key v).get k = m.get k := by
  cases m <;> simp [Json.get] at hc ⊢
  case obj f => exact obj_get_set_ne key k v hk f

/-- Field replacement stores the new value under the key. -/
lemma setField_get_eq (m : Json) (key : List Char) (v c : Json)
    (hc : m.get key = some c) :
    (m.setField key v).get key = some v := by
  cases m <;> simp [Json.get] at hc ⊢
  case obj f => exact obj_get_set_eq key v c f hc

/-- One processed Claude message satisfies the preservation contract. -/
lemma processMessage_preserved (seedF : Nat → Nat)
    (patterns : List CompiledDlpPattern) (idx : Nat) (m : Json)
    (st : RedactState) :
    MsgPreserved m (processMessage seedF patterns idx m st).1 := by
  unfold processMessage
  split_ifs with h1
  · exact ⟨fun _ => rfl, fun _ _ => rfl, optStrOnly_refl _⟩
  · cases hc : m.get (chars "content") with
    | none =>
      simp only [hc]
      exact ⟨fun _ => rfl, fun _ _ => rfl, by rw [hc]; exact trivial⟩
    | some c =>
      simp only [hc]
      refine ⟨fun hr => absurd hr h1, ?_, ?_⟩
      · intro k hk
        exact setField_preserves_ne m (chars "content") k _ c hk hc
      · rw [hc, setField_get_eq m (chars "content") _ c hc]
        exact redactValue_strOnly seedF patterns _ c st

/-- The whole Claude messages walk satisfies the contract pointwise. -/
lemma processMessages_preserved (seedF : Nat → Nat)
    (patterns : List CompiledDlpPattern) :
    ∀ (idx : Nat) (msgs : JsonArr) (st : RedactState),
      ArrRel MsgPreserved msgs (processMessages seedF patterns idx msgs st).1
  | _, .nil, _ => .nil
  | idx, .cons m t, st =>
    .cons (processMessage_preserved seedF patterns idx m st)
      (processMessages_preserved seedF patterns (idx + 1) t
        (processMessage seedF patterns idx m st).2)

/-- One processed Codex input item satisfies the preservation
contract. -/
lemma processInputItem_preserved (seedF : Nat → Nat)
    (patterns : List CompiledDlpPattern) (idx : Nat) (item : Json)
    (st : RedactState) :
    ItemPreserved item (processInputItem seedF patterns idx item st).1 := by
  unfold processInputItem
  split_ifs with h1 h2 h3
  · -- message, non-user: unchanged
    exact ⟨fun ht _ => absurd h1 ht, fun _ _ => rfl,
           fun _ hr => absurd hr h2, fun ht => absurd ht (by rw [h1]; decide)⟩
  · -- message, user
    have hrole : roleOf item = chars "user" := by
      by_contra hne
      exact h2 hne
    cases hc : item.get (chars "content") with
    | none =>
      simp only [hc]
      exact ⟨fun ht _ => absurd h1 ht, fun _ _ => rfl,
             fun _ _ => ⟨fun _ _ => rfl, optStrOnly_refl _⟩,
             fun ht => absurd ht (by rw [h1]; decide)⟩
    | some c =>
      simp only [hc]
      refine ⟨fun ht _ => absurd h1 ht, fun _ hr => absurd hrole hr,
              fun _ _ => ⟨?_, ?_⟩,
              fun ht => absurd ht (by rw [h1]; decide)⟩
      · intro k hk
        exact setField_preserves_ne item (chars "content") k _ c hk hc
      · rw [hc, setField_get_eq item (chars "content") _ c hc]
        exact redactValue_strOnly seedF patterns _ c st
  · -- function_call_output
    cases ho : item.get (chars "output") with
    | none =>
      simp only [ho]
      exact ⟨fun _ hfc => absurd h3 hfc, fun ht _ => absurd ht h1,
             fun ht _ => absurd ht h1,
             fun _ => ⟨fun _ _ => rfl, optStrOnly_refl _⟩⟩
    | some o =>
      simp only [ho]
      refine ⟨fun _ hfc => absurd h3 hfc, fun ht _ => absurd ht h1,
              fun ht _ => absurd ht h1, fun _ => ⟨?_, ?_⟩⟩
      · intro k hk
        exact setField_preserves_ne item (chars "output") k _ o hk ho
      · rw [ho, setField_get_eq item (chars "output") _ o ho]
        exact redactValue_strOnly seedF patterns _ o st
  · -- other types: unchanged
    exact ⟨fun _ _ => rfl, fun ht => absurd ht h1, fun ht => absurd ht h1,
           fun ht => absurd ht h3⟩

/-- The whole Codex input walk satisfies the contract pointwise. -/
lemma processInput_preserved (seedF : Nat → Nat)
    (patterns : List CompiledDlpPattern) :
    ∀ (idx : Nat) (inp : JsonArr) (st : RedactState),
      ArrRel ItemPreserved inp (processInput seedF patterns idx inp st).1
  | _, .nil, _ => .nil
  | idx, .cons item t, st =>
    .cons (processInputItem_preserved seedF patterns idx item st)
      (processInput_preserved seedF patterns (idx + 1) t
        (processInputItem seedF patterns idx item st).2)

/-- C8: in every Claude-shaped and Codex-shaped request, assistant and
system messages, reasoning items and function_call items are returned
unmodified; only string leaves under user-message content and under
function_call_output output can change, and user messages and
function_call_output items keep every other field.  The third part adds
the top-level frame: the pipeline only rewrites the messages and input
keys of the document, so every other top-level value, the Claude system
prompt included, is preserved. -/
theorem C8_user_only_scope :
    (∀ (seedF : Nat → Nat) (patterns : List CompiledDlpPattern) (idx : Nat)
       (msgs : JsonArr) (st : RedactState),
      ArrRel MsgPreserved msgs (processMessages seedF patterns idx msgs st).1)
    ∧ (∀ (seedF : Nat → Nat) (patterns : List CompiledDlpPattern) (idx : Nat)
         (inp : JsonArr) (st : RedactState),
      ArrRel ItemPreserved inp (processInput seedF patterns idx inp st).1)
    ∧ (∀ (j msgs2 inp2 : Json) (k : List Char),
        k ≠ chars "messages" → k ≠ chars "input" →
        ((j.setField (chars "messages") msgs2).setField
          (chars "input") inp2).get k = j.get k) :=
  ⟨fun seedF patterns idx msgs st =>
     processMessages_preserved seedF patterns idx msgs st,
   fun seedF patterns idx inp st =>
     processInput_preserved seedF patterns idx inp st,
   fun j msgs2 inp2 k hkm hki =>
     (setField_get_ne _ (chars "input") k inp2 hki).trans
       (setField_get_ne j (chars "messages") k msgs2 hkm)⟩

/-- A two-message Claude array (assistant then user) for the witness. -/
def msgsSample : JsonArr :=
  .cons (Json.obj (.cons (chars "role") (.str (chars "assistant"))
    (.cons (chars "content") (.str (chars "secret sk-ABCDEFGH")) .cnil)))
    (.cons (Json.obj (.cons (chars "role") (.str (chars "user"))
      (.cons (chars "content") (.str (chars "use sk-ABCDEFGH here")) .cnil)))
      .nil)

/-- A two-item Codex input array (reasoning then function_call_output)
for the witness. -/
def inputSample : JsonArr :=
  .cons (Json.obj (.cons (chars "type") (.str (chars "reasoning"))
    (.cons (chars "summary") (.str (chars "thinking sk-ABCDEFGH")) .cnil)))
    (.cons (Json.obj (.cons (chars "type") (.str (chars "function_call_output"))
      (.cons (chars "output") (.str (chars "echo sk-ABCDEFGH")) .cnil)))
      .nil)

/-- Witness for C8 at concrete arrays. -/
theorem C8_user_only_scope_witness :
    ArrRel MsgPreserved msgsSample
      (processMessages seedId [patApiKey] 0 msgsSample initState).1
    ∧ ArrRel ItemPreserved inputSample
      (processInput seedId [patApiKey] 0 inputSample initState).1
    ∧ ((Json.null.setField (chars "messages") .null).setField
        (chars "input") .null).get (chars "system") =
      Json.null.get (chars "system") :=
  ⟨C8_user_only_scope.1 seedId [patApiKey] 0 msgsSample initState,
   C8_user_only_scope.2.1 seedId [patApiKey] 0 inputSample initState,
   C8_user_only_scope.2.2 .null .null .null (chars "system")
     (by decide) (by decide)⟩

end Gateway
